import Mathlib

/-!
Verification of the sphinx-spice extension (directive.py, transforms.py and
post_transforms.py) against its natural-language specification.

The per-document gated-marker registry and its structural validator, the
document tree with the two merge transforms, the label registry with the
directive run methods, and the post-transform passes (reference upgrade,
title resolution for file and simulation blocks, late link-text rewriting)
are shallowly embedded below.  Every definition is translated from the
Python source; the few places where the relevant code lives outside the
three source files (the node class declarations of nodes.py, the host
numbering, formatting and URI facilities) are modelled from the
specification and say so in their doc comments.  Host oracles appear as
function parameters (numberOf, applyFmt, relUri); fallible code paths that
raise in Python return none.
-/

/-- Tokens recorded in the "sequence" list of the gated registry: each start
directive appends "S", each end directive appends "E" (directive.py). -/
inductive Tok where
  | S
  | E
deriving DecidableEq, Repr

/-- Per-document record of the gated registry
(env.sphinx_spice_file_gated_registry[docname] in directive.py): the
"start" and "end" line-number lists, the token "sequence", the diagnostic
"msg" strings and the "type" set when the record is created.  The Python
key "end" is a Lean keyword, hence the field name endL. -/
structure GatedRecord where
  start : List Nat
  endL : List Nat
  sequence : List Tok
  msg : List String
  type : String
deriving DecidableEq, Repr

/-- Number of non-overlapping matches found by a left-to-right scan for
the pattern "SE", exactly as re.findall("(SE)", sequence) counts them in
CheckGatedDirectives.check_structure (transforms.py line 50). -/
def countSE : List Tok → Nat
  | Tok.S :: Tok.E :: rest => countSE rest + 1
  | _ :: rest => countSE rest
  | [] => 0

/-- Number of occurrences of one token in a sequence. -/
def countTok (t : Tok) : List Tok → Nat
  | [] => 0
  | x :: rest => (if x = t then 1 else 0) + countTok t rest

/-- Spec-side predicate (following the words of the specification, not the
code): the token sequence is a concatenation of disjoint contiguous "SE"
pairs, i.e. it is of the shape SESE...SE.  Claim C1 equates acceptance by
check_structure with this. -/
def decomposableSE : List Tok → Bool
  | [] => true
  | Tok.S :: Tok.E :: rest => decomposableSE rest
  | _ => false

/-- Error kinds raised by CheckGatedDirectives.check_structure
(transforms.py lines 41-54): missing end directive, missing start
directive, nested or interleaved directives. -/
inductive GateError where
  | missingEnd
  | missingStart
  | nested
deriving DecidableEq, Repr

/-- Errors logged by CheckGatedDirectives.check_structure (transforms.py
lines 31-54) for one document, in the order the source tests for them:
len(start) > len(end) logs the missing-end error, len(start) < len(end)
the missing-start error, and with equal counts a mismatch between the
number of "SE" matches and len(start) logs the nested error.  A document
absent from the registry produces no error. -/
def check_structure (registry : List (String × GatedRecord)) (docname : String) :
    List GateError :=
  match registry.lookup docname with
  | none => []
  | some r =>
    (if r.start.length > r.endL.length then [GateError.missingEnd] else []) ++
    (if r.start.length < r.endL.length then [GateError.missingStart] else []) ++
    (if r.start.length = r.endL.length then
      (if countSE r.sequence ≠ r.start.length then [GateError.nested] else [])
     else [])

/-- The "if error: raise ExtensionError" step of check_structure
(transforms.py lines 55-57): the transform raises a fatal build error
exactly when at least one error was logged. -/
def check_fatal (registry : List (String × GatedRecord)) (docname : String) : Bool :=
  !(check_structure registry docname).isEmpty

/-- Concrete record for the token sequence SESE with consistent start/end
line lists, used as a witness input. -/
def recSESE : GatedRecord :=
  { start := [1, 5], endL := [3, 7],
    sequence := [Tok.S, Tok.E, Tok.S, Tok.E],
    msg := ["spice_file-start at line: 1", "spice_file-end at line: 3",
            "spice_file-start at line: 5", "spice_file-end at line: 7"],
    type := "spice_file" }

/-- Node classes of the document tree that the three source files read or
construct: the spice_file / spice_file_enumerable / spice_file_end and
spice_simulation / spice_simulation_start / spice_simulation_end classes of
nodes.py together with the docutils and sphinx node classes used by the
code (title, section, Text, reference, pending_xref, inline, literal, math,
spice_file_latex_number_reference, document).  sectionN stands for
docutils.nodes.section (section is a Lean keyword). -/
inductive Kind where
  | spice_file
  | spice_file_enumerable
  | spice_file_end
  | spice_simulation
  | spice_simulation_start
  | spice_simulation_end
  | spice_file_title
  | spice_file_subtitle
  | spice_simulation_title
  | title
  | sectionN
  | text
  | reference
  | pending_xref
  | inline
  | literal
  | math
  | spice_file_latex_number_reference
  | document
  | other
deriving DecidableEq, Repr

/-- Attribute dictionary of a docutils node, restricted to the keys the
source reads or writes (label, classes, type, docname, title, hidden,
serial_number, target_label, ids, refid, reftype, reftarget, refexplicit,
refuri, internal, anchorname) plus the payload of a Text node. -/
structure Attrs where
  label : String := ""
  classes : List String := []
  type : String := ""
  docname : String := ""
  title : String := ""
  hidden : Bool := false
  serial_number : Nat := 0
  target_label : String := ""
  ids : List String := []
  refid : String := ""
  reftype : String := ""
  reftarget : String := ""
  refexplicit : Bool := false
  refuri : String := ""
  internal : Bool := false
  anchorname : String := ""
  text : String := ""
deriving DecidableEq, Repr

/-- A docutils node: its class, its attribute dictionary, the gated and
resolved_title Python object attributes, and its children.  Modelled from
the spec for the parts of nodes.py that are not under src: a freshly
constructed node carries gated = false and an unset resolved flag. -/
inductive Node where
  | mk (kind : Kind) (attrs : Attrs) (gated : Bool) (resolvedTitle : Bool)
      (children : List Node)

def Node.kind : Node → Kind
  | .mk k _ _ _ _ => k

def Node.attrs : Node → Attrs
  | .mk _ a _ _ _ => a

def Node.gated : Node → Bool
  | .mk _ _ g _ _ => g

def Node.resolvedTitle : Node → Bool
  | .mk _ _ _ r _ => r

def Node.children : Node → List Node
  | .mk _ _ _ _ cs => cs

mutual
/-- Whether a node of the given class occurs anywhere in the tree. -/
def containsKind (k : Kind) : Node → Bool
  | .mk k0 _ _ _ cs => k0 = k || containsKindL k cs
def containsKindL (k : Kind) : List Node → Bool
  | [] => false
  | c :: cs => containsKind k c || containsKindL k cs
end

mutual
/-- docutils astext for the nodes handled here: a Text node yields its
payload, an element concatenates its children (title, reference and inline
nodes are TextElements, whose child text separator is the empty string). -/
def astext : Node → String
  | .mk k a _ _ cs => if k = Kind.text then a.text else astextL cs
def astextL : List Node → String
  | [] => ""
  | c :: cs => astext c ++ astextL cs
end

/-- Scan of find_nodes (transforms.py lines 77-88 and 139-152): walking the
sibling list after a start node, split at the first sibling of the given
end kind, returning the siblings strictly between and the siblings after
the end marker; none when no end marker follows. -/
def splitAtEnd (k : Kind) : List Node → Option (List Node × List Node)
  | [] => none
  | c :: rest =>
    if c.kind = k then some ([], rest)
    else
      match splitAtEnd k rest with
      | some (b, a) => some (c :: b, a)
      | none => none

/-- Leftmost non-overlapping replace-all over the character list, with the
list length as structural fuel (the fuel never runs out because every step
consumes at least one character).  This models Python str.replace, which
String.replace in Lean also implements but through well-founded recursion
that the kernel cannot evaluate. -/
def replaceFuel (pat rep : List Char) : Nat → List Char → List Char
  | _, [] => []
  | 0, l => l
  | n+1, c :: rest =>
    if pat ≠ [] ∧ pat.isPrefixOf (c :: rest) then
      rep ++ replaceFuel pat rep n (List.drop pat.length (c :: rest))
    else c :: replaceFuel pat rep n rest

def replaceAll (pat rep s : String) : String :=
  ⟨replaceFuel pat.data rep.data s.data.length s.data⟩

def sectionIds (s : String) : Attrs := { ids := [s] }

def textN (s : String) : Node := .mk Kind.text { text := s } false false []

/-- Construction of the merged simulation node in
MergeGatedspice_simulations.apply (transforms.py lines 98-119): a fresh
spice_simulation node taking the attributes of the start node with
"spice_simulation-start" replaced by "spice_simulation" in its classes and
type, the non-section children of the start node, and a fresh content section
holding the siblings collected up to the end marker. -/
def buildSimNode (startN : Node) (between : List Node) : Node :=
  Node.mk Kind.spice_simulation
    { startN.attrs with
        classes := startN.attrs.classes.map
          (replaceAll "spice_simulation-start" "spice_simulation"),
        type := "spice_simulation" }
    false false
    ((startN.children.filter (fun c => c.kind ≠ Kind.sectionN)) ++
      [Node.mk Kind.sectionN (sectionIds "spice_simulation-content") false false between])

/-- One sibling list processed by MergeGatedspice_simulations.apply
(transforms.py lines 90-124): each spice_simulation_start node whose end
marker is found later in the same sibling list is replaced by the merged
node and the in-between siblings and the end marker are removed; a start
node without such an end marker is skipped (find_nodes returns None).  The
list length serves as structural fuel; it never runs out. -/
def simApplyListF : Nat → List Node → List Node
  | _, [] => []
  | 0, l => l
  | fuel + 1, c :: rest =>
    if c.kind = Kind.spice_simulation_start then
      match splitAtEnd Kind.spice_simulation_end rest with
      | some (b, a) => buildSimNode c b :: simApplyListF fuel a
      | none => c :: simApplyListF fuel rest
    else c :: simApplyListF fuel rest

/-- Sibling-list step of the simulation merge pass at its exact length. -/
def simApplyList (l : List Node) : List Node := simApplyListF l.length l

mutual
/-- The simulation merge transform over the whole tree: children are
processed recursively and each sibling list is merged.  The Python pass
iterates findall(document, spice_simulation_start_node) and mutates sibling
lists in place; on the flat documents the validator accepts the result is
this recursive traversal. -/
def simApply : Node → Node
  | .mk k a g r cs => .mk k a g r (simApplyList (simApplyEach cs))
def simApplyEach : List Node → List Node
  | [] => []
  | c :: cs => simApply c :: simApplyEach cs
end

/-- cls.replace("-start", "") from MergeGatedspice_files.merge_nodes
(transforms.py lines 161-165). -/
def stripStart (s : String) : String := replaceAll "-start" "" s

/-- content = node.children[-1]; content += child for the collected
siblings (transforms.py lines 167-169): the extra nodes are appended to
the children of the last child. -/
def appendToLast : List Node → List Node → List Node
  | [], _ => []
  | [c], extra => [Node.mk c.kind c.attrs c.gated c.resolvedTitle (c.children ++ extra)]
  | c :: c2 :: rest, extra => c :: appendToLast (c2 :: rest) extra

/-- MergeGatedspice_files.merge_nodes (transforms.py lines 154-172) acting
on the gated file node: classes and type lose their "-start" suffix and
the in-between siblings are attached to the last child of the node. -/
def mergeFileStep (c : Node) (between : List Node) : Node :=
  Node.mk c.kind
    { c.attrs with
        classes := c.attrs.classes.map stripStart,
        type := stripStart c.attrs.type }
    c.gated c.resolvedTitle
    (appendToLast c.children between)

def Node.setGated (g : Bool) : Node → Node
  | .mk k a _ r cs => .mk k a g r cs

def isFileKind (k : Kind) : Bool :=
  k = Kind.spice_file || k = Kind.spice_file_enumerable

/-- One sibling list processed by MergeGatedspice_files.apply
(transforms.py lines 174-184): every gated spice_file or
spice_file_enumerable node with a spice_file_end marker later in its
sibling list is merged and ungated; every other file node is ungated in
place.  The list length serves as structural fuel. -/
def fileApplyListF : Nat → List Node → List Node
  | _, [] => []
  | 0, l => l
  | fuel + 1, c :: rest =>
    if isFileKind c.kind then
      if c.gated then
        match splitAtEnd Kind.spice_file_end rest with
        | some (b, a) => Node.setGated false (mergeFileStep c b) :: fileApplyListF fuel a
        | none => Node.setGated false c :: fileApplyListF fuel rest
      else Node.setGated false c :: fileApplyListF fuel rest
    else c :: fileApplyListF fuel rest

def fileApplyList (l : List Node) : List Node := fileApplyListF l.length l

mutual
def fileApply : Node → Node
  | .mk k a g r cs => .mk k a g r (fileApplyList (fileApplyEach cs))
def fileApplyEach : List Node → List Node
  | [] => []
  | c :: cs => fileApply c :: fileApplyEach cs
end

/-- Both merge transforms (they share default_priority 10); the claims
proved below do not depend on which of the two runs first. -/
def applyMergeTransforms (t : Node) : Node := fileApply (simApply t)

/-- Gated-marker tokens of a sibling list, tagged by kind: gated file start
Sf, file end Ef, simulation start Ss, simulation end Es. -/
inductive MTok where
  | Sf
  | Ef
  | Ss
  | Es
deriving DecidableEq, Repr

/-- The gated-marker token contributed by one node: a
spice_simulation_start node, a spice_simulation_end node, a gated file
node, or a spice_file_end node; every other node contributes nothing. -/
def mtok (n : Node) : Option MTok :=
  if n.kind = Kind.spice_simulation_start then some MTok.Ss
  else if n.kind = Kind.spice_simulation_end then some MTok.Es
  else if isFileKind n.kind && n.gated then some MTok.Sf
  else if n.kind = Kind.spice_file_end then some MTok.Ef
  else none

def mtokens (cs : List Node) : List MTok := cs.filterMap mtok

/-- Well-formedness of the simulation markers of one sibling list: every
simulation start is immediately followed (among the gated tokens) by a
simulation end, and no stray simulation end occurs. -/
def simOK : List MTok → Bool
  | [] => true
  | MTok.Ss :: MTok.Es :: r => simOK r
  | MTok.Ss :: _ => false
  | MTok.Es :: _ => false
  | _ :: r => simOK r

def isFileTok : MTok → Bool
  | MTok.Sf => true
  | MTok.Ef => true
  | _ => false

/-- Well-formedness of the file markers: the file tokens form a sequence
of adjacent Sf-Ef pairs. -/
def filePairs : List MTok → Bool
  | [] => true
  | MTok.Sf :: MTok.Ef :: r => filePairs r
  | _ => false

mutual
/-- Well-gated document: at every sibling list of the tree, simulation
pairs are adjacent among the gated tokens and file markers pair up (file
pairs may enclose complete simulation pairs and arbitrary non-marker
nodes). -/
def wellGated : Node → Bool
  | .mk _ _ _ _ cs =>
    simOK (mtokens cs) && filePairs ((mtokens cs).filter isFileTok) && wellGatedL cs
def wellGatedL : List Node → Bool
  | [] => true
  | c :: cs => wellGated c && wellGatedL cs
end

def CleanSim (n : Node) : Prop :=
  containsKind Kind.spice_simulation_start n = false ∧
  containsKind Kind.spice_simulation_end n = false

def CleanSimL (cs : List Node) : Prop :=
  containsKindL Kind.spice_simulation_start cs = false ∧
  containsKindL Kind.spice_simulation_end cs = false

def InnerSimClean (n : Node) : Prop := CleanSimL n.children

mutual
/-- Whether a gated file node (spice_file or spice_file_enumerable with
gated set) occurs anywhere in the tree. -/
def anyGatedFile : Node → Bool
  | .mk k _ g _ cs => (isFileKind k && g) || anyGatedFileL cs
def anyGatedFileL : List Node → Bool
  | [] => false
  | c :: cs => anyGatedFile c || anyGatedFileL cs
end

def FFree (n : Node) : Prop :=
  containsKind Kind.spice_file_end n = false ∧ anyGatedFile n = false

def FFreeL (cs : List Node) : Prop :=
  containsKindL Kind.spice_file_end cs = false ∧ anyGatedFileL cs = false

def InnerFFree (n : Node) : Prop := FFreeL n.children

mutual
/-- Tokens the gated directives record for a document, read off its tree
in depth-first source order: every start directive appends S, every end
directive appends E. -/
def markerTokens : Node → List Tok
  | .mk k a g r cs =>
    (match mtok (.mk k a g r cs) with
     | some MTok.Ss => [Tok.S]
     | some MTok.Sf => [Tok.S]
     | some MTok.Es => [Tok.E]
     | some MTok.Ef => [Tok.E]
     | none => []) ++ markerTokensL cs
def markerTokensL : List Node → List Tok
  | [] => []
  | c :: cs => markerTokens c ++ markerTokensL cs
end

/-- A gated-registry record consistent with a document tree: line-number
lists of the right lengths and the token sequence read off the tree. -/
def docRecord (kindName : String) (t : Node) : GatedRecord :=
  { start := List.range (countTok Tok.S (markerTokens t)),
    endL := List.range (countTok Tok.E (markerTokens t)),
    sequence := markerTokens t,
    msg := [],
    type := kindName }

def dangStart : Node :=
  .mk Kind.spice_simulation_start
    { label := "l", classes := ["spice_simulation-start"],
      type := "spice_simulation-start", target_label := "f" } false false []

def dangEnd : Node := .mk Kind.spice_simulation_end {} false false []

def dangSection : Node := .mk Kind.sectionN {} false false [dangEnd]

def danglingDoc : Node := .mk Kind.document {} false false [dangStart, dangSection]

/-- env.doc2path: the host engine maps a document name to its source path;
duplicate_labels strips the extension back off, so locations reported in
warnings are document names. -/
def doc2path (docname : String) : String := docname ++ ".rst"

/-- One entry of env.sphinx_spice_file_registry: the directive name under
"type", the registering document, and the stored node.  The aliased flag
records how the node was stored: false for spice_fileDirective.run, which
stores node.deepcopy() (directive.py line 165), true for
spice_simulationDirective.run, which stores the live node itself
(directive.py line 279). -/
structure RegEntry where
  type : String
  docname : String
  node : Node
  aliased : Bool

structure Options where
  label : Option String := none
  classOpt : List String := []
  nonumber : Bool := false
  hidden : Bool := false

structure RunResult where
  registry : List (String × RegEntry)
  output : List Node
  warnings : List (String × String)

/-- Sphinxspice_fileBaseDirective.duplicate_labels (directive.py lines
34-47): a non-empty label already present in the registry produces one
warning naming the path of the other instance, logged at the location of
the current document. -/
def duplicate_labels (reg : List (String × RegEntry)) (docname label : String) :
    Bool × List (String × String) :=
  if label == "" then (false, [])
  else
    match reg.lookup label with
    | some e =>
      (true, [("duplicate label: " ++ label ++ "; other instance in " ++
        doc2path e.docname, docname)])
    | none => (false, [])

def fileTitleNode (subtitleArg : Option (List Node)) : Node :=
  .mk Kind.spice_file_title {} false false
    ([textN "spice_file"] ++ (match subtitleArg with
      | some subs => [.mk Kind.spice_file_subtitle {} false false subs]
      | none => []))

def fileLabel (docname : String) (serial : Nat) (opt : Option String) : String :=
  match opt with
  | some l => if l == "" then docname ++ "-spice_file-" ++ toString serial else l
  | none => docname ++ "-spice_file-" ++ toString serial

/-- spice_fileDirective.run (directive.py lines 90-174), shared by
spice_fileStartDirective through inheritance: name is "spice_file" or
"spice_file-start"; the node is gated exactly when the name is
"spice_file-start"; a duplicate label drops the output and leaves the
registry unchanged; the registry stores a deep copy of the node
(aliased = false); a hidden node registers but emits nothing. -/
def fileRun (reg : List (String × RegEntry)) (docname : String) (serial : Nat)
    (name : String) (opts : Options) (subtitleArg : Option (List Node))
    (content : List Node) : RunResult :=
  let title0 := fileTitleNode subtitleArg
  let sectionNode : Node :=
    .mk Kind.sectionN (sectionIds "spice_file-content") false false content
  let label := fileLabel docname serial opts.label
  match duplicate_labels reg docname label with
  | (true, ws) => { registry := reg, output := [], warnings := ws }
  | (false, _) =>
    let node : Node :=
      .mk (if opts.nonumber then Kind.spice_file else Kind.spice_file_enumerable)
        { label := label, classes := [name] ++ opts.classOpt, ids := [label],
          docname := docname, title := "spice_file", type := name,
          hidden := opts.hidden, serial_number := serial }
        (name == "spice_file-start") false [title0, sectionNode]
    { registry := reg ++ [(label, ⟨name, docname, node, false⟩)],
      output := if opts.hidden then [] else [node],
      warnings := [] }

def simTitleNode : Node :=
  .mk Kind.spice_simulation_title {} false false [textN "spice_simulation to"]

def simLabel (docname : String) (serial : Nat) (opt : Option String) : String :=
  match opt with
  | some l => if l == "" then docname ++ "-spice_simulation-" ++ toString serial else l
  | none => docname ++ "-spice_simulation-" ++ toString serial

/-- spice_simulationDirective.run (directive.py lines 218-285), shared by
spice_simulationStartDirective: the hide_spice_simulations config
suppresses all output; the registry stores the live node itself
(aliased = true). -/
def simRun (reg : List (String × RegEntry)) (docname : String) (serial : Nat)
    (name : String) (nodeKind : Kind) (hide_spice_simulations : Bool)
    (targetLabel : String) (opts : Options) (content : List Node) : RunResult :=
  if hide_spice_simulations then { registry := reg, output := [], warnings := [] }
  else
    let title0 := simTitleNode
    let sectionNode : Node :=
      .mk Kind.sectionN (sectionIds "spice_simulation-content") false false content
    let label := simLabel docname serial opts.label
    match duplicate_labels reg docname label with
    | (true, ws) => { registry := reg, output := [], warnings := ws }
    | (false, _) =>
      let node : Node :=
        .mk nodeKind
          { label := label, classes := [name] ++ opts.classOpt, ids := [label],
            docname := docname, title := astext title0, type := name,
            hidden := opts.hidden, serial_number := serial,
            target_label := targetLabel }
          false false [title0, sectionNode]
      { registry := reg ++ [(label, ⟨name, docname, node, true⟩)],
        output := if opts.hidden then [] else [node],
        warnings := [] }

/-- spice_fileEndDirective.run returns [spice_file_end_node()]
(directive.py line 358). -/
def fileEndOutput : Node := .mk Kind.spice_file_end {} false false []

/-- spice_simulationEndDirective.run returns [spice_simulation_end_node()]
(directive.py line 428). -/
def simEndOutput : Node := .mk Kind.spice_simulation_end {} false false []

def docNode (cs : List Node) : Node := .mk Kind.document {} false false cs

/-- Reading a registry entry while the live tree node has some current
value: a deep-copied entry yields the snapshot taken at registration, an
aliased entry yields the live node. -/
def registryView (e : RegEntry) (live : Node) : Node :=
  if e.aliased then live else e.node

def Node.setResolvedTitle (r : Bool) : Node → Node
  | .mk k a g _ cs => .mk k a g r cs

/-- Subtitle formatting of ResolveTitlesInspice_files.resolve_title
(post_transforms.py lines 102-108): when the title node has a
spice_file_subtitle second child, its children are wrapped in " (" and
")". -/
def subtitleWrapOf (title : Node) : List Node :=
  match title.children with
  | _ :: sub :: _ =>
    if sub.kind = Kind.spice_file_subtitle then
      [textN " ("] ++ sub.children ++ [textN ")"]
    else []
  | _ => []

/-- ResolveTitlesInspice_files.resolve_title (post_transforms.py lines
86-112).  numberOf stands for the host numbering facility get_node_number,
fmt for config.numfig_format["spice_file"] and applyFmt for Python %
formatting, all host interfaces.  A node without children would raise
IndexError in Python; the embedding returns none there. -/
def resolve_title (latex : Bool) (numberOf : Node → Nat) (fmt : String)
    (applyFmt : String → Nat → String) (node : Node) : Option Node :=
  match node.children with
  | [] => none
  | title :: rest =>
    if title.kind = Kind.spice_file_title then
      if node.kind = Kind.spice_file_enumerable then
        some (Node.mk node.kind node.attrs node.gated true
          (Node.mk Kind.title { title := fmt } false false
            ((if latex then [textN (applyFmt fmt (numberOf node))] else []) ++
              subtitleWrapOf title) :: rest))
      else
        match title.children with
        | [] => none
        | t0 :: _ =>
          some (Node.mk node.kind node.attrs node.gated true
            (Node.mk Kind.title {} false false ([t0] ++ subtitleWrapOf title) :: rest))
    else
      some (Node.setResolvedTitle true node)

def simSubtitleWrap (frest : List Node) : List Node :=
  match frest with
  | sub :: _ =>
    if sub.kind = Kind.spice_file_subtitle then
      [textN " ("] ++ sub.children ++ [textN ")"]
    else []
  | [] => []

/-- The text appended to a simulation title from its target file block:
a space, the astext of the first child of the file title, and the display number for
enumerable file nodes (post_transforms.py lines 142-145). -/
def simUpdText (numberOf : Node → Nat) (fileNode f0 : Node) : String :=
  " " ++ astext f0 ++
    (if fileNode.kind = Kind.spice_file_enumerable then
      " " ++ toString (numberOf fileNode)
    else "")

/-- resolve_spice_simulation_title (post_transforms.py lines 125-169).
relUri stands for app.builder.get_relative_uri and curDoc for
app.env.docname, both host interfaces.  The Python IndexError paths
(childless node, file node or file title) return none.  The has_equations
side effect on the host math domain is an outbound host interface and is
not modelled. -/
def resolve_spice_simulation_title (numberOf : Node → Nat)
    (relUri : String → String → String) (curDoc : String)
    (node fileNode : Node) : Option Node :=
  match node.children with
  | [] => none
  | title :: rest =>
    match fileNode.children with
    | [] => none
    | ftitle :: _ =>
      if title.kind = Kind.spice_simulation_title then
        match ftitle.children with
        | [] => none
        | f0 :: frest =>
          some (Node.mk node.kind
            { node.attrs with
                title := node.attrs.title ++ simUpdText numberOf fileNode f0 }
            node.gated true
            (Node.mk Kind.title {} false false
              [textN node.attrs.title,
               Node.mk Kind.reference
                 { internal := true,
                   refuri := relUri curDoc fileNode.attrs.docname ++ "#" ++
                     fileNode.attrs.label,
                   anchorname := "" } false false
                 ([textN (simUpdText numberOf fileNode f0)] ++
                   simSubtitleWrap frest)] :: rest))
      else
        some (Node.setResolvedTitle true node)

/-- registry[label]["node"] = node after a simulation title is resolved
(post_transforms.py line 188). -/
def updateRegNode : List (String × RegEntry) → String → Node → List (String × RegEntry)
  | [], _, _ => []
  | (k, e) :: rest, l, n =>
    if k = l then (k, { e with node := n }) :: rest
    else (k, e) :: updateRegNode rest l n

mutual
/-- ResolveTitlesInspice_simulations.run (post_transforms.py lines
175-201): the document is scanned for spice_simulation nodes; a resolvable
node is resolved and written back to the registry; a failing lookup (or
any exception inside the resolver) logs one undefined-label warning with
the location of the current document and RETURNS from run, so the remaining
nodes of the document are left untouched (the Bool component is false when
the scan was cut short).  Simulation nodes produced by the directives do
not nest, so the scan does not descend into a resolved simulation node. -/
def resolveSimsNode (numberOf : Node → Nat) (relUri : String → String → String)
    (docname : String) :
    List (String × RegEntry) → Node →
      Node × List (String × RegEntry) × List (String × String) × Bool
  | reg, .mk k a g r cs =>
    if k = Kind.spice_simulation then
      let n : Node := .mk k a g r cs
      match (reg.lookup n.attrs.target_label).bind
          (fun tgt => resolve_spice_simulation_title numberOf relUri docname n tgt.node) with
      | some n2 => (n2, updateRegNode reg n2.attrs.label n2, [], true)
      | none => (n, reg, [("undefined label: " ++ n.attrs.target_label, docname)], false)
    else
      match resolveSimsList numberOf relUri docname reg cs with
      | (cs2, reg2, w2, k2) => (.mk k a g r cs2, reg2, w2, k2)
def resolveSimsList (numberOf : Node → Nat) (relUri : String → String → String)
    (docname : String) :
    List (String × RegEntry) → List Node →
      List Node × List (String × RegEntry) × List (String × String) × Bool
  | reg, [] => ([], reg, [], true)
  | reg, c :: cs =>
    match resolveSimsNode numberOf relUri docname reg c with
    | (c2, reg2, w2, k2) =>
      if k2 then
        match resolveSimsList numberOf relUri docname reg2 cs with
        | (cs2, reg3, w3, k3) => (c2 :: cs2, reg3, w2 ++ w3, k3)
      else (c2 :: cs, reg2, w2, false)
end

/-- The LaTeX-builder branch of ResolveLinkTextTospice_simulations.run
(post_transforms.py lines 222-229): references to enumerable file nodes
are replaced by a spice_file_latex_number_reference carrying the same
attributes and children. -/
def latexSubst (latex : Bool) (tn node : Node) : Node :=
  if latex ∧ tn.kind = Kind.spice_file_enumerable then
    Node.mk Kind.spice_file_latex_number_reference node.attrs node.gated
      node.resolvedTitle node.children
  else node

def Node.setChildren (cs : List Node) : Node → Node
  | .mk k a g r _ => .mk k a g r cs

/-- Body of the reference loop of ResolveLinkTextTospice_simulations.run
(post_transforms.py lines 217-245) for one reference node: a refid that
resolves to a simulation node has its displayed inline content replaced by
the composed title text, resolving the target synchronously first when its
title is still unresolved; the inner registry lookup has no exception
handler, so its failure is the none result. -/
def resolveLinkTextNode (latex : Bool) (numberOf : Node → Nat)
    (relUri : String → String → String) (curDoc : String)
    (reg : List (String × RegEntry)) (node : Node) : Option Node :=
  match reg.lookup node.attrs.refid with
  | none => some node
  | some target =>
    if target.node.kind = Kind.spice_simulation then
      match (if target.node.resolvedTitle then some target.node
             else (reg.lookup target.node.attrs.target_label).bind
               (fun fe => resolve_spice_simulation_title numberOf relUri curDoc
                 target.node fe.node)) with
      | none => none
      | some tn2 =>
        match tn2.children with
        | [] => none
        | t0 :: _ =>
          match (latexSubst latex target.node node).children with
          | [] => none
          | inl :: restC =>
            some (Node.setChildren
              (Node.setChildren [textN (astext t0)] inl :: restC)
              (latexSubst latex target.node node))
    else some (latexSubst latex target.node node)

/-- Body of the pending_xref loop of UpdateReferencesToEnumerated.run
(post_transforms.py lines 53-73) for one reference node: a non-numref
reference to an enumerable file node is upgraded to numref and its inline
is rebuilt as a literal, unless the author supplied explicit link text
(refexplicit), which is never overwritten.  classes.remove("std-ref")
raises ValueError when absent; the embedding returns none there. -/
def updateRefNode (reg : List (String × RegEntry)) (node : Node) : Option Node :=
  if node.attrs.reftype ≠ "numref" then
    match reg.lookup node.attrs.reftarget with
    | some target =>
      if target.node.kind = Kind.spice_file_enumerable then
        if node.attrs.refexplicit then some node
        else
          match node.children with
          | [] => none
          | inline0 :: restC =>
            if "std-ref" ∈ inline0.attrs.classes then
              some (Node.mk node.kind { node.attrs with reftype := "numref" }
                node.gated node.resolvedTitle
                (Node.mk Kind.literal
                  { classes := (inline0.attrs.classes.erase "std-ref") ++ ["std-numref"] }
                  false false inline0.children :: restC))
            else none
      else some node
    | none => some node
  else some node

/-- The fresh per-document record created on first use of the gated
registry (directive.py lines 313-320): empty lists and the type of the
directive that created the record. -/
def gatedInit (ty : String) : GatedRecord :=
  { start := [], endL := [], sequence := [], msg := [], type := ty }

def setRecord : List (String × GatedRecord) → String → GatedRecord →
    List (String × GatedRecord)
  | [], d, r => [(d, r)]
  | (k, v) :: rest, d, r =>
    if k = d then (d, r) :: rest else (k, v) :: setRecord rest d r

/-- Update of env.sphinx_spice_file_gated_registry[docname]: the record is
created with the given type if absent, then modified in place.  The
registry is keyed by document name only; all four gated directives write
to the same attribute env.sphinx_spice_file_gated_registry. -/
def gatedUpdate (reg : List (String × GatedRecord)) (docname : String) (ty : String)
    (f : GatedRecord → GatedRecord) : List (String × GatedRecord) :=
  match reg.lookup docname with
  | some r => setRecord reg docname (f r)
  | none => setRecord reg docname (f (gatedInit ty))

/-- spice_fileStartDirective.run bookkeeping (directive.py lines 307-325):
append the line number to "start", S to "sequence" and a diagnostic to
"msg" of the shared per-document record. -/
def recordFileStart (reg : List (String × GatedRecord)) (docname : String)
    (lineno : Nat) : List (String × GatedRecord) :=
  gatedUpdate reg docname "spice_file" (fun r =>
    { r with
        start := r.start ++ [lineno]
        sequence := r.sequence ++ [Tok.S]
        msg := r.msg ++ ["spice_file-start at line: " ++ toString lineno] })

/-- spice_fileEndDirective.run bookkeeping (directive.py lines 339-357). -/
def recordFileEnd (reg : List (String × GatedRecord)) (docname : String)
    (lineno : Nat) : List (String × GatedRecord) :=
  gatedUpdate reg docname "spice_file" (fun r =>
    { r with
        endL := r.endL ++ [lineno]
        sequence := r.sequence ++ [Tok.E]
        msg := r.msg ++ ["spice_file-end at line: " ++ toString lineno] })

/-- spice_simulationStartDirective.run bookkeeping (directive.py lines
377-395): the same registry and the same per-document record as the file
directives. -/
def recordSimStart (reg : List (String × GatedRecord)) (docname : String)
    (lineno : Nat) : List (String × GatedRecord) :=
  gatedUpdate reg docname "spice_simulation" (fun r =>
    { r with
        start := r.start ++ [lineno]
        sequence := r.sequence ++ [Tok.S]
        msg := r.msg ++ ["spice_simulation-start at line: " ++ toString lineno] })

/-- spice_simulationEndDirective.run bookkeeping (directive.py lines
409-427). -/
def recordSimEnd (reg : List (String × GatedRecord)) (docname : String)
    (lineno : Nat) : List (String × GatedRecord) :=
  gatedUpdate reg docname "spice_simulation" (fun r =>
    { r with
        endL := r.endL ++ [lineno]
        sequence := r.sequence ++ [Tok.E]
        msg := r.msg ++ ["spice_simulation-end at line: " ++ toString lineno] })

/-- One document records, in order, a file-start (line 1), a
simulation-start (line 2), a file-end (line 3) and a simulation-end
(line 4), exactly as the four gated directives do. -/
def interleavedReg : List (String × GatedRecord) :=
  recordSimEnd (recordFileEnd (recordSimStart (recordFileStart [] "doc" 1) "doc" 2) "doc" 3) "doc" 4

def simRes0 : RunResult :=
  simRun [] "doc" 0 "spice_simulation" Kind.spice_simulation false "f1"
    { label := some "s1" } []

def simLive0 : Node := simRes0.output.headD (textN "")

def simEntry0 : RegEntry :=
  (simRes0.registry.lookup "s1").getD ⟨"", "", textN "", false⟩

def oneNum : Node → Nat := fun _ => 1

def noUri : String → String → String := fun _ _ => ""

def fTitle1 : Node := .mk Kind.spice_file_title {} false false [textN "spice_file"]

def fNode1 : Node :=
  .mk Kind.spice_file_enumerable { label := "f1", docname := "doc" } false false
    [fTitle1, .mk Kind.sectionN (sectionIds "spice_file-content") false false []]

def regF : List (String × RegEntry) := [("f1", ⟨"spice_file", "doc", fNode1, false⟩)]

def ghostSim : Node :=
  .mk Kind.spice_simulation
    { label := "a", target_label := "ghost", title := "spice_simulation to" }
    false false
    [simTitleNode, .mk Kind.sectionN (sectionIds "spice_simulation-content") false false []]

def goodSim : Node :=
  .mk Kind.spice_simulation
    { label := "b", target_label := "f1", title := "spice_simulation to" }
    false false
    [simTitleNode, .mk Kind.sectionN (sectionIds "spice_simulation-content") false false []]

def c5run : Node × List (String × RegEntry) × List (String × String) × Bool :=
  resolveSimsNode oneNum noUri "doc" regF (docNode [ghostSim, goodSim])

def c5runGood : Node × List (String × RegEntry) × List (String × String) × Bool :=
  resolveSimsNode oneNum noUri "doc" regF (docNode [goodSim])


/-- Gated simulation start marker used in the C2 witness document. -/
def simStartW : Node :=
  .mk Kind.spice_simulation_start { label := "w", target_label := "f1" } false false []

/-- Document whose simulation start and end markers are adjacent siblings. -/
def pairedDoc : Node :=
  docNode [simStartW, textN "x", .mk Kind.spice_simulation_end {} false false []]

/-- Run of the plain spice_file directive on an empty registry. -/
def fileRes0 : RunResult :=
  fileRun [] "doc" 0 "spice_file" { label := some "f" } none []

/-- The registry entry that run created. -/
def fileEntry0 : RegEntry :=
  (fileRes0.registry.lookup "f").getD ⟨"", "", textN "", true⟩

/-- Gated registry holding a fresh record for one document. -/
def oneDocReg : List (String × GatedRecord) := [("doc", gatedInit "spice_file")]

/-- A registry entry occupying the label "x". -/
def dupEntry : RegEntry := ⟨"spice_file", "other", textN "", false⟩

/-- Registry with the label "x" already taken. -/
def dupReg : List (String × RegEntry) := [("x", dupEntry)]

/-- Registry entry holding a live simulation node. -/
def simEntry8 : RegEntry := ⟨"spice_simulation", "doc", goodSim, true⟩

/-- Registry entry holding a deep-copied enumerable file node. -/
def fileEntry8 : RegEntry := ⟨"spice_file", "doc", fNode1, false⟩

/-- Registry holding the simulation under s1 and its target file under f1. -/
def reg8 : List (String × RegEntry) := [("s1", simEntry8), ("f1", fileEntry8)]

/-- Inline child of the reference, carrying the std-ref class. -/
def inl8 : Node := .mk Kind.inline { classes := ["std-ref"] } false false [textN "old"]

/-- Reference node whose refid points at the registered simulation. -/
def node8 : Node := .mk Kind.reference { refid := "s1" } false false [inl8]

/-- The simulation node after synchronous title resolution. -/
def resolvedSim8 : Node :=
  (resolve_spice_simulation_title oneNum noUri "doc" goodSim fNode1).getD (textN "")

/-- A plain (non-enumerable) file node with a title and an empty content section. -/
def m9 : Node :=
  .mk Kind.spice_file { label := "m" } false false
    [fTitle1, .mk Kind.sectionN (sectionIds "spice_file-content") false false []]

/-- Trivial formatting oracle. -/
def fmt9 : String → Nat → String := fun f _ => f

/-- The file node after one resolution. -/
def m9r : Node := (resolve_title false oneNum "spice_file %s" fmt9 m9).getD (textN "")

/-- The simulation node after one resolution. -/
def n9r : Node :=
  (resolve_spice_simulation_title oneNum noUri "doc" goodSim fNode1).getD (textN "")

/-- Registry entry for the enumerable file node of regF. -/
def fEntry10 : RegEntry := ⟨"spice_file", "doc", fNode1, false⟩

/-- A pending_xref with explicit author text targeting the enumerable file node. -/
def xref10 : Node :=
  .mk Kind.pending_xref
    { reftype := "std-ref", reftarget := "f1", refexplicit := true }
    false false [.mk Kind.inline { classes := ["std-ref"] } false false [textN "f1"]]

theorem countSE_le_countS : ∀ l : List Tok, countSE l ≤ countTok Tok.S l
  | [] => by simp [countSE, countTok]
  | Tok.S :: Tok.E :: rest => by
      have h := countSE_le_countS rest
      simp [countSE, countTok]
      omega
  | Tok.S :: [] => by simp [countSE, countTok]
  | Tok.S :: Tok.S :: rest => by
      have h := countSE_le_countS (Tok.S :: rest)
      simp [countSE, countTok] at h ⊢
      omega
  | Tok.E :: rest => by
      have h := countSE_le_countS rest
      simp [countSE, countTok]
      omega
termination_by l => l.length

theorem countSE_le_countE : ∀ l : List Tok, countSE l ≤ countTok Tok.E l
  | [] => by simp [countSE, countTok]
  | Tok.S :: Tok.E :: rest => by
      have h := countSE_le_countE rest
      simp [countSE, countTok]
      omega
  | Tok.S :: [] => by simp [countSE, countTok]
  | Tok.S :: Tok.S :: rest => by
      have h := countSE_le_countE (Tok.S :: rest)
      simp [countSE, countTok] at h ⊢
      omega
  | Tok.E :: rest => by
      have h := countSE_le_countE rest
      simp [countSE, countTok]
      omega
termination_by l => l.length

/-- With as many S tokens as E tokens, the greedy "SE" match count equals
the number of S tokens exactly when the sequence decomposes into disjoint
contiguous SE pairs. -/
theorem countSE_eq_iff_decomposable :
    ∀ l : List Tok, countTok Tok.S l = countTok Tok.E l →
      (countSE l = countTok Tok.S l ↔ decomposableSE l = true)
  | [], _ => by simp [countSE, countTok, decomposableSE]
  | Tok.S :: Tok.E :: rest, h => by
      have hrec := countSE_eq_iff_decomposable rest (by
        simp [countTok] at h; omega)
      simp [countSE, countTok, decomposableSE]
      constructor
      · intro h1
        exact hrec.mp (by omega)
      · intro h2
        have h3 := hrec.mpr h2
        omega
  | Tok.S :: [], h => by
      simp [countTok] at h
  | Tok.S :: Tok.S :: rest, h => by
      have hle := countSE_le_countS (Tok.S :: rest)
      simp only [countSE] at hle ⊢
      simp [countTok, decomposableSE] at hle ⊢
      omega
  | Tok.E :: rest, h => by
      have hle := countSE_le_countE rest
      simp [countTok] at h
      simp [countSE, countTok, decomposableSE]
      omega
termination_by l => l.length

/-- Claim C1: for a per-document gated record whose start and end lists
are consistent with its token sequence (every recorded start appended an
S, every recorded end an E, as the tracker directives do), the structural
validator logs the missing-end error when starts outnumber ends, the
missing-start error when ends outnumber starts, and with equal counts it
accepts exactly when the token sequence decomposes into disjoint
contiguous SE pairs; any logged error makes the check fatal. -/
theorem C1_validator (r : GatedRecord) (doc : String)
    (hS : r.start.length = countTok Tok.S r.sequence)
    (hE : r.endL.length = countTok Tok.E r.sequence) :
    (r.start.length > r.endL.length →
      check_structure [(doc, r)] doc = [GateError.missingEnd]) ∧
    (r.start.length < r.endL.length →
      check_structure [(doc, r)] doc = [GateError.missingStart]) ∧
    (r.start.length = r.endL.length →
      (check_structure [(doc, r)] doc = [] ↔ decomposableSE r.sequence = true)) ∧
    (check_structure [(doc, r)] doc ≠ [] → check_fatal [(doc, r)] doc = true) := by
  have hlook : ([(doc, r)] : List (String × GatedRecord)).lookup doc = some r := by
    simp [List.lookup]
  refine ⟨?_, ?_, ?_, ?_⟩
  · intro hgt
    simp [check_structure, hlook, hgt, Nat.not_lt.mpr (Nat.le_of_lt hgt),
      Nat.ne_of_gt hgt]
  · intro hlt
    simp [check_structure, hlook, hlt, Nat.not_lt.mpr (Nat.le_of_lt hlt),
      Nat.ne_of_lt hlt]
  · intro heq
    have hcnt : countTok Tok.S r.sequence = countTok Tok.E r.sequence := by
      rw [← hS, ← hE]; exact heq
    have hiff := countSE_eq_iff_decomposable r.sequence hcnt
    have hkey : (countSE r.sequence = r.start.length) ↔
        decomposableSE r.sequence = true := by
      rw [hS]; exact hiff
    rw [heq] at hkey
    simp [check_structure, hlook, heq, lt_irrefl]
    constructor
    · intro hse
      exact hkey.mp hse
    · intro hdec
      exact hkey.mpr hdec
  · intro hne
    simp [check_fatal, List.isEmpty_iff]
    intro hcontra
    exact hne hcontra

/-- Witness for C1_validator at the concrete record recSESE: the counts
are consistent and equal, and the SESE sequence is accepted. -/
theorem C1_validator_witness :
    check_structure [("doc", recSESE)] "doc" = [] :=
  ((C1_validator recSESE "doc" (by decide) (by decide)).2.2.1 (by decide)).mpr
    (by decide)

theorem containsKindL_append (k : Kind) (l1 l2 : List Node) :
    containsKindL k (l1 ++ l2) = (containsKindL k l1 || containsKindL k l2) := by
  induction l1 with
  | nil => simp [containsKindL]
  | cons c cs ih => simp [containsKindL, ih, Bool.or_assoc]

theorem containsKindL_eq_false_iff (k : Kind) (cs : List Node) :
    containsKindL k cs = false ↔ ∀ c ∈ cs, containsKind k c = false := by
  induction cs with
  | nil => simp [containsKindL]
  | cons c rest ih => simp [containsKindL, ih]

theorem containsKind_mk (k : Kind) (k0 : Kind) (a : Attrs) (g r : Bool) (cs : List Node) :
    containsKind k (.mk k0 a g r cs) = (decide (k0 = k) || containsKindL k cs) := by
  simp [containsKind]

theorem mtok_eq_Ss_iff (n : Node) : mtok n = some MTok.Ss ↔ n.kind = Kind.spice_simulation_start := by
  unfold mtok
  split_ifs with h1 h2 h3 h4 <;> simp_all

theorem mtok_eq_Es_iff (n : Node) : mtok n = some MTok.Es ↔ n.kind = Kind.spice_simulation_end := by
  unfold mtok
  split_ifs with h1 h2 h3 h4 <;> simp_all

theorem mtok_eq_Ef_iff (n : Node) : mtok n = some MTok.Ef ↔ n.kind = Kind.spice_file_end := by
  unfold mtok
  split_ifs with h1 h2 h3 h4 <;> simp_all [isFileKind]
  intro hk
  rw [hk] at h3
  simp at h3

theorem mtok_eq_Sf_iff (n : Node) :
    mtok n = some MTok.Sf ↔ ((isFileKind n.kind && n.gated) = true) := by
  unfold mtok
  split_ifs with h1 h2 h3 h4 <;> simp_all [isFileKind]

theorem mtok_none_kind (n : Node) (h : mtok n = none) :
    n.kind ≠ Kind.spice_simulation_start ∧ n.kind ≠ Kind.spice_simulation_end ∧
    n.kind ≠ Kind.spice_file_end ∧ (isFileKind n.kind && n.gated) = false := by
  unfold mtok at h
  split_ifs at h with h1 h2 h3 h4 <;> simp_all

theorem mtokens_nil : mtokens [] = [] := rfl

theorem mtokens_cons (c : Node) (cs : List Node) :
    mtokens (c :: cs) = (match mtok c with
      | some t => t :: mtokens cs
      | none => mtokens cs) := by
  simp [mtokens, List.filterMap_cons]
  cases mtok c <;> simp

theorem mtokens_append (l1 l2 : List Node) :
    mtokens (l1 ++ l2) = mtokens l1 ++ mtokens l2 := by
  simp [mtokens]

theorem mtokens_eq_cons (cs : List Node) (t : MTok) (ts : List MTok)
    (h : mtokens cs = t :: ts) :
    ∃ pre e post, cs = pre ++ e :: post ∧ (∀ x ∈ pre, mtok x = none) ∧
      mtok e = some t ∧ mtokens post = ts := by
  induction cs with
  | nil => simp [mtokens] at h
  | cons c rest ih =>
    rw [mtokens_cons] at h
    cases hc : mtok c with
    | some t0 =>
      rw [hc] at h
      simp at h
      exact ⟨[], c, rest, by simp, by simp, by rw [hc, h.1], h.2⟩
    | none =>
      rw [hc] at h
      obtain ⟨pre, e, post, hcs, hpre, he, hpost⟩ := ih h
      exact ⟨c :: pre, e, post, by simp [hcs], by
        intro x hx
        rcases List.mem_cons.mp hx with rfl | hx2
        · exact hc
        · exact hpre x hx2, he, hpost⟩

theorem splitAtEnd_of_decomp (k : Kind) (pre : List Node) (e : Node) (post : List Node)
    (hpre : ∀ x ∈ pre, x.kind ≠ k) (he : e.kind = k) :
    splitAtEnd k (pre ++ e :: post) = some (pre, post) := by
  induction pre with
  | nil => simp [splitAtEnd, he]
  | cons c cs ih =>
    have hc : c.kind ≠ k := hpre c (by simp)
    simp only [List.cons_append, splitAtEnd]
    rw [if_neg hc]
    have h2 := ih (fun x hx => hpre x (by simp [hx]))
    simp only [List.append_eq] at h2 ⊢
    rw [h2]

theorem CleanSimL_iff (cs : List Node) : CleanSimL cs ↔ ∀ c ∈ cs, CleanSim c := by
  unfold CleanSimL CleanSim
  rw [containsKindL_eq_false_iff, containsKindL_eq_false_iff]
  constructor
  · intro h c hc
    exact ⟨h.1 c hc, h.2 c hc⟩
  · intro h
    exact ⟨fun c hc => (h c hc).1, fun c hc => (h c hc).2⟩

theorem CleanSim_of_kind (n : Node)
    (h1 : n.kind ≠ Kind.spice_simulation_start)
    (h2 : n.kind ≠ Kind.spice_simulation_end)
    (h3 : CleanSimL n.children) : CleanSim n := by
  cases n with
  | mk k a g r cs =>
    unfold CleanSim
    simp only [Node.kind] at h1 h2
    unfold CleanSimL at h3
    rw [containsKind_mk, containsKind_mk]
    simp only [Node.children] at h3
    simp [h1, h2, h3.1, h3.2]

theorem CleanSim_children (n : Node) (h : CleanSim n) : CleanSimL n.children := by
  cases n with
  | mk k a g r cs =>
    unfold CleanSim at h
    rw [containsKind_mk, containsKind_mk] at h
    simp at h
    exact ⟨h.1.2, h.2.2⟩

theorem wellGated_mk (k : Kind) (a : Attrs) (g r : Bool) (cs : List Node) :
    wellGated (.mk k a g r cs) =
      (simOK (mtokens cs) && filePairs ((mtokens cs).filter isFileTok) &&
        wellGatedL cs) := by
  simp [wellGated]

theorem wellGatedL_iff (cs : List Node) :
    wellGatedL cs = true ↔ ∀ c ∈ cs, wellGated c = true := by
  induction cs with
  | nil => simp [wellGatedL]
  | cons c rest ih => simp [wellGatedL, ih]

theorem mtok_none_of_kind (n : Node)
    (h1 : n.kind ≠ Kind.spice_simulation_start)
    (h2 : n.kind ≠ Kind.spice_simulation_end)
    (h3 : n.kind ≠ Kind.spice_file_end)
    (h4 : isFileKind n.kind = false) : mtok n = none := by
  unfold mtok
  simp [h1, h2, h3, h4]

theorem mtokens_eq_nil_of_none (cs : List Node) (h : ∀ x ∈ cs, mtok x = none) :
    mtokens cs = [] := by
  induction cs with
  | nil => rfl
  | cons c rest ih =>
    rw [mtokens_cons, h c (by simp)]
    exact ih (fun x hx => h x (by simp [hx]))

theorem splitAtEnd_after_length {k : Kind} :
    ∀ {l b a : List Node}, splitAtEnd k l = some (b, a) → a.length < l.length := by
  intro l
  induction l with
  | nil => intro b a h; simp [splitAtEnd] at h
  | cons c rest ih =>
    intro b a h
    simp only [splitAtEnd] at h
    by_cases hc : c.kind = k
    · simp [hc] at h
      simp [← h.2]
    · simp [hc] at h
      cases hsplit : splitAtEnd k rest with
      | none => rw [hsplit] at h; simp at h
      | some p =>
        rw [hsplit] at h
        cases p with
        | mk b0 a0 =>
          simp at h
          have := ih hsplit
          simp [← h.2]
          omega

theorem simApplyListF_irrel : ∀ (fuel : Nat) (l : List Node) (fuel2 : Nat),
    l.length ≤ fuel → l.length ≤ fuel2 →
    simApplyListF fuel l = simApplyListF fuel2 l := by
  intro fuel
  induction fuel with
  | zero =>
    intro l fuel2 hl _
    have : l = [] := List.length_eq_zero.mp (Nat.le_zero.mp hl)
    subst this
    cases fuel2 <;> rfl
  | succ n ih =>
    intro l fuel2 hl hl2
    cases l with
    | nil => cases fuel2 <;> rfl
    | cons c rest =>
      have hr : rest.length ≤ n := by simp at hl; omega
      cases fuel2 with
      | zero => simp at hl2
      | succ m =>
        have hr2 : rest.length ≤ m := by simp at hl2; omega
        simp only [simApplyListF]
        by_cases hk : c.kind = Kind.spice_simulation_start
        · rw [if_pos hk, if_pos hk]
          cases hs : splitAtEnd Kind.spice_simulation_end rest with
          | some p =>
            cases p with
            | mk b a =>
              have ha := splitAtEnd_after_length hs
              simp only [List.length_cons] at ha
              dsimp only
              rw [ih a m (by omega) (by omega)]
          | none =>
            dsimp only
            rw [ih rest m hr hr2]
        · rw [if_neg hk, if_neg hk]
          rw [ih rest m hr hr2]

theorem simApplyListF_fuel (fuel : Nat) (l : List Node) (h : l.length ≤ fuel) :
    simApplyListF fuel l = simApplyList l :=
  simApplyListF_irrel fuel l l.length h le_rfl

theorem simApplyList_nil : simApplyList [] = [] := rfl

theorem simApplyList_cons_start (c : Node) (rest pre post : List Node)
    (hk : c.kind = Kind.spice_simulation_start)
    (hs : splitAtEnd Kind.spice_simulation_end rest = some (pre, post)) :
    simApplyList (c :: rest) = buildSimNode c pre :: simApplyList post := by
  show simApplyListF (rest.length + 1) (c :: rest) = _
  simp only [simApplyListF]
  rw [if_pos hk, hs]
  dsimp only
  rw [simApplyListF_fuel rest.length post (by
    have := splitAtEnd_after_length hs
    simp only [List.length_cons] at this
    omega)]

theorem simApplyList_cons_other (c : Node) (rest : List Node)
    (hk : c.kind ≠ Kind.spice_simulation_start) :
    simApplyList (c :: rest) = c :: simApplyList rest := by
  show simApplyListF (rest.length + 1) (c :: rest) = _
  simp only [simApplyListF]
  rw [if_neg hk]
  rw [simApplyListF_fuel rest.length rest le_rfl]

theorem mtokens_filter_nonsection (cs : List Node) :
    mtokens (cs.filter (fun c => c.kind ≠ Kind.sectionN)) = mtokens cs := by
  induction cs with
  | nil => rfl
  | cons c rest ih =>
    rw [List.filter_cons]
    by_cases hc : c.kind = Kind.sectionN
    · have hnone : mtok c = none := by
        apply mtok_none_of_kind <;> simp [hc, isFileKind]
      rw [if_neg (by simp [hc])]
      rw [ih, mtokens_cons, hnone]
    · rw [if_pos (by simp [hc])]
      rw [mtokens_cons, mtokens_cons, ih]

theorem mtok_buildSimNode (c : Node) (pre : List Node) :
    mtok (buildSimNode c pre) = none := by
  apply mtok_none_of_kind <;> simp [buildSimNode, Node.kind, isFileKind]

theorem simApplyList_clean_aux : ∀ (n : Nat) (ds : List Node), ds.length ≤ n →
    simOK (mtokens ds) = true →
    (∀ d ∈ ds, wellGated d = true ∧ InnerSimClean d) →
    CleanSimL (simApplyList ds) ∧ wellGatedL (simApplyList ds) = true ∧
      mtokens (simApplyList ds) = (mtokens ds).filter isFileTok := by
  intro n
  induction n with
  | zero =>
    intro ds hlen _ _
    have hnil : ds = [] := List.length_eq_zero.mp (Nat.le_zero.mp hlen)
    subst hnil
    simp [simApplyList_nil, CleanSimL, containsKindL, wellGatedL, mtokens]
  | succ n ih =>
    intro ds hlen hok hall
    cases ds with
    | nil => simp [simApplyList_nil, CleanSimL, containsKindL, wellGatedL, mtokens]
    | cons c rest =>
      have hrestlen : rest.length ≤ n := by simp at hlen; omega
      by_cases hk : c.kind = Kind.spice_simulation_start
      · have hcS : mtok c = some MTok.Ss := (mtok_eq_Ss_iff c).mpr hk
        have htoks : mtokens (c :: rest) = MTok.Ss :: mtokens rest := by
          rw [mtokens_cons, hcS]
        rw [htoks] at hok
        cases hmr : mtokens rest with
        | nil => rw [hmr] at hok; simp [simOK] at hok
        | cons t ts =>
          cases t with
          | Sf => rw [hmr] at hok; simp [simOK] at hok
          | Ef => rw [hmr] at hok; simp [simOK] at hok
          | Ss => rw [hmr] at hok; simp [simOK] at hok
          | Es =>
            rw [hmr] at hok
            have hok' : simOK ts = true := by simpa [simOK] using hok
            obtain ⟨pre, e, post, hrest, hpre, he, hpost⟩ :=
              mtokens_eq_cons rest MTok.Es ts hmr
            have heEnd : e.kind = Kind.spice_simulation_end := (mtok_eq_Es_iff e).mp he
            have hsplit : splitAtEnd Kind.spice_simulation_end rest = some (pre, post) := by
              rw [hrest]
              exact splitAtEnd_of_decomp _ pre e post
                (fun x hx => (mtok_none_kind x (hpre x hx)).2.1) heEnd
            rw [simApplyList_cons_start c rest pre post hk hsplit]
            have hpostlen : post.length ≤ n := by
              rw [hrest] at hrestlen; simp at hrestlen; omega
            have hpostok : simOK (mtokens post) = true := by rw [hpost]; exact hok'
            have hmempost : ∀ d ∈ post, d ∈ c :: rest := by
              intro d hd
              rw [hrest]
              exact List.mem_cons_of_mem c
                (List.mem_append.mpr (Or.inr (List.mem_cons_of_mem e hd)))
            have hmempre : ∀ d ∈ pre, d ∈ c :: rest := by
              intro d hd
              rw [hrest]
              exact List.mem_cons_of_mem c (List.mem_append.mpr (Or.inl hd))
            obtain ⟨ihClean, ihWell, ihTok⟩ := ih post hpostlen hpostok
              (fun d hd => hall d (hmempost d hd))
            have hcw := hall c (by simp)
            -- facts about the merged node
            have hpreClean : ∀ x ∈ pre, CleanSim x := by
              intro x hx
              have hnone := hpre x hx
              exact CleanSim_of_kind x (mtok_none_kind x hnone).1
                (mtok_none_kind x hnone).2.1
                (hall x (hmempre x hx)).2
            have hmergedClean : CleanSim (buildSimNode c pre) := by
              apply CleanSim_of_kind
              · simp [buildSimNode, Node.kind]
              · simp [buildSimNode, Node.kind]
              · simp only [buildSimNode, Node.children]
                rw [CleanSimL_iff]
                intro x hx
                rcases List.mem_append.mp hx with hx1 | hx2
                · have := (CleanSimL_iff _).mp hcw.2 x (List.mem_of_mem_filter hx1)
                  exact this
                · simp at hx2
                  subst hx2
                  apply CleanSim_of_kind <;> simp [Node.kind, Node.children]
                  rw [CleanSimL_iff]
                  exact hpreClean
            have hmergedWell : wellGated (buildSimNode c pre) = true := by
              cases c with
              | mk ck ca cg cr ccs =>
                simp only [buildSimNode, Node.attrs, Node.children]
                rw [wellGated_mk]
                have hcw1 := hcw.1
                rw [wellGated_mk] at hcw1
                simp only [Bool.and_eq_true] at hcw1
                have htoks2 : mtokens
                    ((List.filter (fun c => decide (c.kind ≠ Kind.sectionN)) ccs) ++
                      [Node.mk Kind.sectionN (sectionIds "spice_simulation-content")
                        false false pre]) = mtokens ccs := by
                  rw [mtokens_append]
                  have h1 : mtokens [Node.mk Kind.sectionN
                      (sectionIds "spice_simulation-content") false false pre] = [] := by
                    apply mtokens_eq_nil_of_none
                    intro x hx
                    simp at hx
                    subst hx
                    apply mtok_none_of_kind <;> simp [Node.kind, isFileKind]
                  rw [h1, mtokens_filter_nonsection]
                  simp
                rw [htoks2]
                simp only [Bool.and_eq_true]
                refine ⟨⟨hcw1.1.1, hcw1.1.2⟩, ?_⟩
                rw [wellGatedL_iff]
                intro x hx
                rcases List.mem_append.mp hx with hx1 | hx2
                · exact (wellGatedL_iff _).mp hcw1.2 x (List.mem_of_mem_filter hx1)
                · simp at hx2
                  subst hx2
                  rw [wellGated_mk]
                  have hprenil : mtokens pre = [] := mtokens_eq_nil_of_none pre hpre
                  rw [hprenil]
                  simp [simOK, filePairs]
                  rw [wellGatedL_iff]
                  intro y hy
                  exact (hall y (hmempre y hy)).1
            refine ⟨?_, ?_, ?_⟩
            · rw [CleanSimL_iff]
              intro x hx
              rcases List.mem_cons.mp hx with rfl | hx2
              · exact hmergedClean
              · exact (CleanSimL_iff _).mp ihClean x hx2
            · rw [wellGatedL_iff]
              intro x hx
              rcases List.mem_cons.mp hx with rfl | hx2
              · exact hmergedWell
              · exact (wellGatedL_iff _).mp ihWell x hx2
            · rw [mtokens_cons, mtok_buildSimNode, htoks, hmr, ihTok, hpost]
              simp [isFileTok]
      · -- head is not a simulation start marker
        rw [simApplyList_cons_other c rest hk]
        have hcases : mtok c = none ∨ mtok c = some MTok.Sf ∨ mtok c = some MTok.Ef ∨
            mtok c = some MTok.Es := by
          cases hc : mtok c with
          | none => exact Or.inl rfl
          | some t =>
            cases t with
            | Sf => exact Or.inr (Or.inl rfl)
            | Ef => exact Or.inr (Or.inr (Or.inl rfl))
            | Es => exact Or.inr (Or.inr (Or.inr rfl))
            | Ss => exact absurd ((mtok_eq_Ss_iff c).mp hc) hk
        have hallrest : ∀ d ∈ rest, wellGated d = true ∧ InnerSimClean d :=
          fun d hd => hall d (List.mem_cons_of_mem c hd)
        rcases hcases with hc | hc | hc | hc
        · have htoks : mtokens (c :: rest) = mtokens rest := by rw [mtokens_cons, hc]
          rw [htoks] at hok
          obtain ⟨ihClean, ihWell, ihTok⟩ := ih rest hrestlen hok hallrest
          refine ⟨?_, ?_, ?_⟩
          · rw [CleanSimL_iff]
            intro x hx
            rcases List.mem_cons.mp hx with rfl | hx2
            · exact CleanSim_of_kind x (mtok_none_kind x hc).1 (mtok_none_kind x hc).2.1
                (hall x (by simp)).2
            · exact (CleanSimL_iff _).mp ihClean x hx2
          · rw [wellGatedL_iff]
            intro x hx
            rcases List.mem_cons.mp hx with rfl | hx2
            · exact (hall x (by simp)).1
            · exact (wellGatedL_iff _).mp ihWell x hx2
          · rw [mtokens_cons, hc, htoks, ihTok]
        · have hkc := (mtok_eq_Sf_iff c).mp hc
          have htoks : mtokens (c :: rest) = MTok.Sf :: mtokens rest := by
            rw [mtokens_cons, hc]
          rw [htoks] at hok
          have hok' : simOK (mtokens rest) = true := by simpa [simOK] using hok
          obtain ⟨ihClean, ihWell, ihTok⟩ := ih rest hrestlen hok' hallrest
          refine ⟨?_, ?_, ?_⟩
          · rw [CleanSimL_iff]
            intro x hx
            rcases List.mem_cons.mp hx with rfl | hx2
            · refine CleanSim_of_kind x ?_ ?_ (hall x (by simp)).2
              · simp [isFileKind] at hkc
                rcases hkc.1 with h | h <;> simp [h]
              · simp [isFileKind] at hkc
                rcases hkc.1 with h | h <;> simp [h]
            · exact (CleanSimL_iff _).mp ihClean x hx2
          · rw [wellGatedL_iff]
            intro x hx
            rcases List.mem_cons.mp hx with rfl | hx2
            · exact (hall x (by simp)).1
            · exact (wellGatedL_iff _).mp ihWell x hx2
          · rw [mtokens_cons, hc, htoks, ihTok]
            simp [isFileTok]
        · have hkc := (mtok_eq_Ef_iff c).mp hc
          have htoks : mtokens (c :: rest) = MTok.Ef :: mtokens rest := by
            rw [mtokens_cons, hc]
          rw [htoks] at hok
          have hok' : simOK (mtokens rest) = true := by simpa [simOK] using hok
          obtain ⟨ihClean, ihWell, ihTok⟩ := ih rest hrestlen hok' hallrest
          refine ⟨?_, ?_, ?_⟩
          · rw [CleanSimL_iff]
            intro x hx
            rcases List.mem_cons.mp hx with rfl | hx2
            · exact CleanSim_of_kind x (by simp [hkc]) (by simp [hkc])
                (hall x (by simp)).2
            · exact (CleanSimL_iff _).mp ihClean x hx2
          · rw [wellGatedL_iff]
            intro x hx
            rcases List.mem_cons.mp hx with rfl | hx2
            · exact (hall x (by simp)).1
            · exact (wellGatedL_iff _).mp ihWell x hx2
          · rw [mtokens_cons, hc, htoks, ihTok]
            simp [isFileTok]
        · have htoks : mtokens (c :: rest) = MTok.Es :: mtokens rest := by
            rw [mtokens_cons, hc]
          rw [htoks] at hok
          simp [simOK] at hok

theorem simApplyEach_eq_map (cs : List Node) : simApplyEach cs = cs.map simApply := by
  induction cs with
  | nil => simp [simApplyEach]
  | cons c rest ih => simp [simApplyEach, ih]

theorem simApply_mk (k : Kind) (a : Attrs) (g r : Bool) (cs : List Node) :
    simApply (.mk k a g r cs) = .mk k a g r (simApplyList (simApplyEach cs)) := by
  simp [simApply]

theorem simApply_kind (n : Node) : (simApply n).kind = n.kind := by
  cases n with
  | mk k a g r cs => rw [simApply_mk]; rfl

theorem simApply_gated (n : Node) : (simApply n).gated = n.gated := by
  cases n with
  | mk k a g r cs => rw [simApply_mk]; rfl

theorem mtok_simApply (n : Node) : mtok (simApply n) = mtok n := by
  unfold mtok
  rw [simApply_kind, simApply_gated]

theorem mtokens_simApplyEach (cs : List Node) :
    mtokens (simApplyEach cs) = mtokens cs := by
  induction cs with
  | nil => simp [simApplyEach]
  | cons c rest ih =>
    simp only [simApplyEach]
    rw [mtokens_cons, mtokens_cons, mtok_simApply, ih]

theorem simOK_of_fileToks (ts : List MTok) (h : ∀ t ∈ ts, isFileTok t = true) :
    simOK ts = true := by
  induction ts with
  | nil => simp [simOK]
  | cons t rest ih =>
    have ht := h t (by simp)
    cases t with
    | Sf => simp [simOK]; exact ih (fun x hx => h x (by simp [hx]))
    | Ef => simp [simOK]; exact ih (fun x hx => h x (by simp [hx]))
    | Ss => simp [isFileTok] at ht
    | Es => simp [isFileTok] at ht

theorem simApply_clean : ∀ (n : Nat) (t : Node), sizeOf t ≤ n →
    wellGated t = true →
    wellGated (simApply t) = true ∧ InnerSimClean (simApply t) := by
  intro n
  induction n with
  | zero =>
    intro t hle
    cases t with
    | mk k a g r cs => simp at hle
  | succ n ih =>
    intro t hle hwg
    cases t with
    | mk k a g r cs =>
      rw [wellGated_mk] at hwg
      simp only [Bool.and_eq_true] at hwg
      obtain ⟨⟨hok, hfp⟩, hwl⟩ := hwg
      have hds : ∀ d ∈ simApplyEach cs, wellGated d = true ∧ InnerSimClean d := by
        rw [simApplyEach_eq_map]
        intro d hd
        obtain ⟨c, hc, rfl⟩ := List.mem_map.mp hd
        have hsize : sizeOf c ≤ n := by
          have h1 := List.sizeOf_lt_of_mem hc
          have h2 : sizeOf (Node.mk k a g r cs) ≤ n + 1 := hle
          simp at h2
          omega
        exact ih c hsize ((wellGatedL_iff cs).mp hwl c hc)
      have htoks : mtokens (simApplyEach cs) = mtokens cs := mtokens_simApplyEach cs
      have hok' : simOK (mtokens (simApplyEach cs)) = true := by rw [htoks]; exact hok
      obtain ⟨hclean, hwell, htok2⟩ := simApplyList_clean_aux
        (simApplyEach cs).length (simApplyEach cs) le_rfl hok' hds
      rw [simApply_mk]
      constructor
      · rw [wellGated_mk]
        simp only [Bool.and_eq_true]
        refine ⟨⟨?_, ?_⟩, hwell⟩
        · rw [htok2, htoks]
          apply simOK_of_fileToks
          intro x hx
          exact List.of_mem_filter hx
        · rw [htok2, htoks]
          rw [List.filter_filter]
          simpa using hfp
      · unfold InnerSimClean
        simp only [Node.children]
        exact hclean

theorem anyGatedFileL_eq_false_iff (cs : List Node) :
    anyGatedFileL cs = false ↔ ∀ c ∈ cs, anyGatedFile c = false := by
  induction cs with
  | nil => simp [anyGatedFileL]
  | cons c rest ih => simp [anyGatedFileL, ih]

theorem FFreeL_iff (cs : List Node) : FFreeL cs ↔ ∀ c ∈ cs, FFree c := by
  unfold FFreeL FFree
  rw [containsKindL_eq_false_iff, anyGatedFileL_eq_false_iff]
  constructor
  · intro h c hc
    exact ⟨h.1 c hc, h.2 c hc⟩
  · intro h
    exact ⟨fun c hc => (h c hc).1, fun c hc => (h c hc).2⟩

theorem FFree_of_parts (n : Node)
    (h1 : n.kind ≠ Kind.spice_file_end)
    (h2 : (isFileKind n.kind && n.gated) = false)
    (h3 : FFreeL n.children) : FFree n := by
  cases n with
  | mk k a g r cs =>
    unfold FFree
    simp only [Node.kind, Node.gated] at h1 h2
    unfold FFreeL at h3
    simp only [Node.children] at h3
    rw [containsKind_mk]
    simp only [anyGatedFile]
    simp [h1, h2, h3.1, h3.2]

theorem FFree_children (n : Node) (h : FFree n) : FFreeL n.children := by
  cases n with
  | mk k a g r cs =>
    unfold FFree at h
    rw [containsKind_mk] at h
    simp only [anyGatedFile] at h
    simp at h
    exact ⟨h.1.2, h.2.2⟩

theorem CleanSimL_append (l1 l2 : List Node) :
    CleanSimL (l1 ++ l2) ↔ (CleanSimL l1 ∧ CleanSimL l2) := by
  rw [CleanSimL_iff, CleanSimL_iff, CleanSimL_iff]
  constructor
  · intro h
    exact ⟨fun c hc => h c (List.mem_append.mpr (Or.inl hc)),
           fun c hc => h c (List.mem_append.mpr (Or.inr hc))⟩
  · intro h c hc
    rcases List.mem_append.mp hc with h1 | h2
    · exact h.1 c h1
    · exact h.2 c h2

theorem FFreeL_append (l1 l2 : List Node) :
    FFreeL (l1 ++ l2) ↔ (FFreeL l1 ∧ FFreeL l2) := by
  rw [FFreeL_iff, FFreeL_iff, FFreeL_iff]
  constructor
  · intro h
    exact ⟨fun c hc => h c (List.mem_append.mpr (Or.inl hc)),
           fun c hc => h c (List.mem_append.mpr (Or.inr hc))⟩
  · intro h c hc
    rcases List.mem_append.mp hc with h1 | h2
    · exact h.1 c h1
    · exact h.2 c h2

theorem appendToLast_FFree (cs extra : List Node)
    (h1 : FFreeL cs) (h2 : FFreeL extra) : FFreeL (appendToLast cs extra) := by
  induction cs with
  | nil => simpa [appendToLast] using h1
  | cons c rest ih =>
    cases rest with
    | nil =>
      simp only [appendToLast]
      rw [FFreeL_iff]
      intro x hx
      simp at hx
      subst hx
      have hc : FFree c := (FFreeL_iff _).mp h1 c (by simp)
      have hcc : FFreeL c.children := FFree_children c hc
      cases c with
      | mk k a g r ccs =>
        simp only [Node.kind, Node.attrs, Node.gated, Node.resolvedTitle, Node.children] at hcc ⊢
        unfold FFree at hc
        rw [containsKind_mk] at hc
        simp only [anyGatedFile] at hc
        obtain ⟨hfe, hgf⟩ := hc
        rcases Bool.or_eq_false_iff.mp hfe with ⟨hfe1, _⟩
        rcases Bool.or_eq_false_iff.mp hgf with ⟨hgf1, _⟩
        apply FFree_of_parts
        · simp only [Node.kind]
          simpa using hfe1
        · simp only [Node.kind, Node.gated]
          exact hgf1
        · simp only [Node.children]
          exact (FFreeL_append _ _).mpr ⟨hcc, h2⟩
    | cons c2 rest2 =>
      simp only [appendToLast]
      rw [FFreeL_iff]
      intro x hx
      rcases List.mem_cons.mp hx with rfl | hx2
      · exact (FFreeL_iff _).mp h1 x (by simp)
      · have hrest : FFreeL (c2 :: rest2) := by
          rw [FFreeL_iff]
          intro y hy
          exact (FFreeL_iff _).mp h1 y (by simp [List.mem_cons.mp hy])
        exact (FFreeL_iff _).mp (ih hrest) x hx2

theorem appendToLast_CleanSim (cs extra : List Node)
    (h1 : CleanSimL cs) (h2 : CleanSimL extra) : CleanSimL (appendToLast cs extra) := by
  induction cs with
  | nil => simpa [appendToLast] using h1
  | cons c rest ih =>
    cases rest with
    | nil =>
      simp only [appendToLast]
      rw [CleanSimL_iff]
      intro x hx
      simp at hx
      subst hx
      have hc : CleanSim c := (CleanSimL_iff _).mp h1 c (by simp)
      have hcc : CleanSimL c.children := CleanSim_children c hc
      cases c with
      | mk k a g r ccs =>
        simp only [Node.children] at hcc
        unfold CleanSim at hc
        rw [containsKind_mk, containsKind_mk] at hc
        obtain ⟨hs, he⟩ := hc
        rcases Bool.or_eq_false_iff.mp hs with ⟨hs1, _⟩
        rcases Bool.or_eq_false_iff.mp he with ⟨he1, _⟩
        apply CleanSim_of_kind
        · simp only [Node.kind]
          simpa using hs1
        · simp only [Node.kind]
          simpa using he1
        · simp only [Node.children]
          exact (CleanSimL_append _ _).mpr ⟨hcc, h2⟩
    | cons c2 rest2 =>
      simp only [appendToLast]
      rw [CleanSimL_iff]
      intro x hx
      rcases List.mem_cons.mp hx with rfl | hx2
      · exact (CleanSimL_iff _).mp h1 x (by simp)
      · have hrest : CleanSimL (c2 :: rest2) := by
          rw [CleanSimL_iff]
          intro y hy
          exact (CleanSimL_iff _).mp h1 y (by simp [List.mem_cons.mp hy])
        exact (CleanSimL_iff _).mp (ih hrest) x hx2

theorem fileApplyListF_irrel : ∀ (fuel : Nat) (l : List Node) (fuel2 : Nat),
    l.length ≤ fuel → l.length ≤ fuel2 →
    fileApplyListF fuel l = fileApplyListF fuel2 l := by
  intro fuel
  induction fuel with
  | zero =>
    intro l fuel2 hl _
    have : l = [] := List.length_eq_zero.mp (Nat.le_zero.mp hl)
    subst this
    cases fuel2 <;> rfl
  | succ n ih =>
    intro l fuel2 hl hl2
    cases l with
    | nil => cases fuel2 <;> rfl
    | cons c rest =>
      have hr : rest.length ≤ n := by simp at hl; omega
      cases fuel2 with
      | zero => simp at hl2
      | succ m =>
        have hr2 : rest.length ≤ m := by simp at hl2; omega
        simp only [fileApplyListF]
        by_cases hk : isFileKind c.kind = true
        · rw [if_pos hk, if_pos hk]
          by_cases hg : c.gated = true
          · rw [if_pos hg, if_pos hg]
            cases hs : splitAtEnd Kind.spice_file_end rest with
            | some p =>
              cases p with
              | mk b a =>
                have ha := splitAtEnd_after_length hs
                simp only [List.length_cons] at ha
                dsimp only
                rw [ih a m (by omega) (by omega)]
            | none =>
              dsimp only
              rw [ih rest m hr hr2]
          · rw [if_neg hg, if_neg hg]
            rw [ih rest m hr hr2]
        · rw [if_neg hk, if_neg hk]
          rw [ih rest m hr hr2]

theorem fileApplyListF_fuel (fuel : Nat) (l : List Node) (h : l.length ≤ fuel) :
    fileApplyListF fuel l = fileApplyList l :=
  fileApplyListF_irrel fuel l l.length h le_rfl

theorem fileApplyList_nil : fileApplyList [] = [] := rfl

theorem fileApplyList_cons_gated (c : Node) (rest pre post : List Node)
    (hk : isFileKind c.kind = true) (hg : c.gated = true)
    (hs : splitAtEnd Kind.spice_file_end rest = some (pre, post)) :
    fileApplyList (c :: rest) =
      Node.setGated false (mergeFileStep c pre) :: fileApplyList post := by
  show fileApplyListF (rest.length + 1) (c :: rest) = _
  simp only [fileApplyListF]
  rw [if_pos hk, if_pos hg, hs]
  dsimp only
  rw [fileApplyListF_fuel rest.length post (by
    have := splitAtEnd_after_length hs
    simp only [List.length_cons] at this
    omega)]

theorem fileApplyList_cons_ungated (c : Node) (rest : List Node)
    (hk : isFileKind c.kind = true) (hg : c.gated = false) :
    fileApplyList (c :: rest) = Node.setGated false c :: fileApplyList rest := by
  show fileApplyListF (rest.length + 1) (c :: rest) = _
  simp only [fileApplyListF]
  rw [if_pos hk, if_neg (by simp [hg])]
  rw [fileApplyListF_fuel rest.length rest le_rfl]

theorem fileApplyList_cons_other (c : Node) (rest : List Node)
    (hk : isFileKind c.kind = false) :
    fileApplyList (c :: rest) = c :: fileApplyList rest := by
  show fileApplyListF (rest.length + 1) (c :: rest) = _
  simp only [fileApplyListF]
  rw [if_neg (by simp [hk])]
  rw [fileApplyListF_fuel rest.length rest le_rfl]

theorem setGated_false_of_ungated (c : Node) (h : c.gated = false) :
    Node.setGated false c = c := by
  cases c with
  | mk k a g r cs =>
    simp only [Node.gated] at h
    subst h
    rfl

theorem mtok_of_CleanSim (c : Node) (h : CleanSim c) :
    mtok c = none ∨ mtok c = some MTok.Sf ∨ mtok c = some MTok.Ef := by
  cases hc : mtok c with
  | none => exact Or.inl rfl
  | some t =>
    cases t with
    | Sf => exact Or.inr (Or.inl rfl)
    | Ef => exact Or.inr (Or.inr rfl)
    | Ss =>
      have hk := (mtok_eq_Ss_iff c).mp hc
      cases c with
      | mk k a g r cs =>
        unfold CleanSim at h
        rw [containsKind_mk] at h
        simp only [Node.kind] at hk
        subst hk
        simp at h
    | Es =>
      have hk := (mtok_eq_Es_iff c).mp hc
      cases c with
      | mk k a g r cs =>
        unfold CleanSim at h
        rw [containsKind_mk, containsKind_mk] at h
        simp only [Node.kind] at hk
        subst hk
        simp at h

theorem isFileKind_ne (k : Kind) (h : isFileKind k = true) :
    k ≠ Kind.spice_simulation_start ∧ k ≠ Kind.spice_simulation_end ∧
    k ≠ Kind.spice_file_end := by
  cases k <;> simp_all [isFileKind]

theorem mtokens_filter_file_of_clean (ds : List Node)
    (h : ∀ d ∈ ds, CleanSim d) :
    (mtokens ds).filter isFileTok = mtokens ds := by
  induction ds with
  | nil => simp [mtokens]
  | cons c rest ih =>
    have hrest := ih (fun d hd => h d (by simp [hd]))
    rw [mtokens_cons]
    rcases mtok_of_CleanSim c (h c (by simp)) with hc | hc | hc <;>
      rw [hc] <;> simp [isFileTok, hrest]

theorem mergeFileStep_kind (c : Node) (pre : List Node) :
    (mergeFileStep c pre).kind = c.kind := by
  simp [mergeFileStep, Node.kind]

theorem mergeFileStep_children (c : Node) (pre : List Node) :
    (mergeFileStep c pre).children = appendToLast c.children pre := by
  simp [mergeFileStep, Node.children]

theorem setGated_kind (g : Bool) (m : Node) : (Node.setGated g m).kind = m.kind := by
  cases m; rfl

theorem setGated_gated (g : Bool) (m : Node) : (Node.setGated g m).gated = g := by
  cases m; rfl

theorem setGated_children (g : Bool) (m : Node) :
    (Node.setGated g m).children = m.children := by
  cases m; rfl

theorem fileApplyList_clean_aux : ∀ (n : Nat) (ds : List Node), ds.length ≤ n →
    filePairs (mtokens ds) = true →
    (∀ d ∈ ds, CleanSim d ∧ InnerFFree d) →
    FFreeL (fileApplyList ds) ∧ CleanSimL (fileApplyList ds) := by
  intro n
  induction n with
  | zero =>
    intro ds hlen _ _
    have hnil : ds = [] := List.length_eq_zero.mp (Nat.le_zero.mp hlen)
    subst hnil
    simp [fileApplyList_nil, FFreeL, CleanSimL, containsKindL, anyGatedFileL]
  | succ n ih =>
    intro ds hlen hfp hall
    cases ds with
    | nil => simp [fileApplyList_nil, FFreeL, CleanSimL, containsKindL, anyGatedFileL]
    | cons c rest =>
      have hrestlen : rest.length ≤ n := by simp at hlen; omega
      have hallrest : ∀ d ∈ rest, CleanSim d ∧ InnerFFree d :=
        fun d hd => hall d (List.mem_cons_of_mem c hd)
      rcases mtok_of_CleanSim c (hall c (by simp)).1 with hc | hc | hc
      · -- head records no gated token: it is kept (possibly ungated in place)
        have hnk := mtok_none_kind c hc
        have htoks : mtokens (c :: rest) = mtokens rest := by rw [mtokens_cons, hc]
        rw [htoks] at hfp
        obtain ⟨ihF, ihC⟩ := ih rest hrestlen hfp hallrest
        have hheadF : FFree c := FFree_of_parts c hnk.2.2.1 hnk.2.2.2 (hall c (by simp)).2
        have hout : fileApplyList (c :: rest) = c :: fileApplyList rest := by
          by_cases hfk : isFileKind c.kind = true
          · have hg : c.gated = false := by
              have := hnk.2.2.2
              rw [hfk] at this
              simpa using this
            rw [fileApplyList_cons_ungated c rest hfk hg,
              setGated_false_of_ungated c hg]
          · rw [fileApplyList_cons_other c rest (by simpa using hfk)]
        rw [hout]
        constructor
        · rw [FFreeL_iff]
          intro x hx
          rcases List.mem_cons.mp hx with rfl | hx2
          · exact hheadF
          · exact (FFreeL_iff _).mp ihF x hx2
        · rw [CleanSimL_iff]
          intro x hx
          rcases List.mem_cons.mp hx with rfl | hx2
          · exact (hall x (by simp)).1
          · exact (CleanSimL_iff _).mp ihC x hx2
      · -- head is a gated file node: it merges with its end marker
        have hkc := (mtok_eq_Sf_iff c).mp hc
        simp only [Bool.and_eq_true] at hkc
        have htoks : mtokens (c :: rest) = MTok.Sf :: mtokens rest := by
          rw [mtokens_cons, hc]
        rw [htoks] at hfp
        cases hmr : mtokens rest with
        | nil => rw [hmr] at hfp; simp [filePairs] at hfp
        | cons t ts =>
          cases t with
          | Sf => rw [hmr] at hfp; simp [filePairs] at hfp
          | Ss => rw [hmr] at hfp; simp [filePairs] at hfp
          | Es => rw [hmr] at hfp; simp [filePairs] at hfp
          | Ef =>
            rw [hmr] at hfp
            have hfp' : filePairs ts = true := by simpa [filePairs] using hfp
            obtain ⟨pre, e, post, hrest, hpre, he, hpost⟩ :=
              mtokens_eq_cons rest MTok.Ef ts hmr
            have heEnd : e.kind = Kind.spice_file_end := (mtok_eq_Ef_iff e).mp he
            have hsplit : splitAtEnd Kind.spice_file_end rest = some (pre, post) := by
              rw [hrest]
              exact splitAtEnd_of_decomp _ pre e post
                (fun x hx => (mtok_none_kind x (hpre x hx)).2.2.1) heEnd
            rw [fileApplyList_cons_gated c rest pre post hkc.1 hkc.2 hsplit]
            have hpostlen : post.length ≤ n := by
              rw [hrest] at hrestlen; simp at hrestlen; omega
            have hmempost : ∀ d ∈ post, d ∈ c :: rest := by
              intro d hd
              rw [hrest]
              exact List.mem_cons_of_mem c
                (List.mem_append.mpr (Or.inr (List.mem_cons_of_mem e hd)))
            have hmempre : ∀ d ∈ pre, d ∈ c :: rest := by
              intro d hd
              rw [hrest]
              exact List.mem_cons_of_mem c (List.mem_append.mpr (Or.inl hd))
            obtain ⟨ihF, ihC⟩ := ih post hpostlen (by rw [hpost]; exact hfp')
              (fun d hd => hall d (hmempost d hd))
            have hpreF : FFreeL pre := by
              rw [FFreeL_iff]
              intro x hx
              have hnone := hpre x hx
              exact FFree_of_parts x (mtok_none_kind x hnone).2.2.1
                (mtok_none_kind x hnone).2.2.2 (hall x (hmempre x hx)).2
            have hpreC : CleanSimL pre := by
              rw [CleanSimL_iff]
              intro x hx
              exact (hall x (hmempre x hx)).1
            have hmergedF : FFree (Node.setGated false (mergeFileStep c pre)) := by
              apply FFree_of_parts
              · rw [setGated_kind, mergeFileStep_kind]
                exact (isFileKind_ne c.kind hkc.1).2.2
              · rw [setGated_kind, setGated_gated]
                simp
              · rw [setGated_children, mergeFileStep_children]
                exact appendToLast_FFree c.children pre
                  (hall c (by simp)).2 hpreF
            have hmergedC : CleanSim (Node.setGated false (mergeFileStep c pre)) := by
              apply CleanSim_of_kind
              · rw [setGated_kind, mergeFileStep_kind]
                exact (isFileKind_ne c.kind hkc.1).1
              · rw [setGated_kind, mergeFileStep_kind]
                exact (isFileKind_ne c.kind hkc.1).2.1
              · rw [setGated_children, mergeFileStep_children]
                exact appendToLast_CleanSim c.children pre
                  (CleanSim_children c (hall c (by simp)).1) hpreC
            constructor
            · rw [FFreeL_iff]
              intro x hx
              rcases List.mem_cons.mp hx with rfl | hx2
              · exact hmergedF
              · exact (FFreeL_iff _).mp ihF x hx2
            · rw [CleanSimL_iff]
              intro x hx
              rcases List.mem_cons.mp hx with rfl | hx2
              · exact hmergedC
              · exact (CleanSimL_iff _).mp ihC x hx2
      · -- head is a stray file-end marker: excluded by the pairing hypothesis
        have htoks : mtokens (c :: rest) = MTok.Ef :: mtokens rest := by
          rw [mtokens_cons, hc]
        rw [htoks] at hfp
        simp [filePairs] at hfp

theorem fileApplyEach_eq_map (cs : List Node) : fileApplyEach cs = cs.map fileApply := by
  induction cs with
  | nil => simp [fileApplyEach]
  | cons c rest ih => simp [fileApplyEach, ih]

theorem fileApply_mk (k : Kind) (a : Attrs) (g r : Bool) (cs : List Node) :
    fileApply (.mk k a g r cs) = .mk k a g r (fileApplyList (fileApplyEach cs)) := by
  simp [fileApply]

theorem fileApply_kind (n : Node) : (fileApply n).kind = n.kind := by
  cases n with
  | mk k a g r cs => rw [fileApply_mk]; rfl

theorem fileApply_gated (n : Node) : (fileApply n).gated = n.gated := by
  cases n with
  | mk k a g r cs => rw [fileApply_mk]; rfl

theorem mtok_fileApply (n : Node) : mtok (fileApply n) = mtok n := by
  unfold mtok
  rw [fileApply_kind, fileApply_gated]

theorem mtokens_fileApplyEach (cs : List Node) :
    mtokens (fileApplyEach cs) = mtokens cs := by
  induction cs with
  | nil => simp [fileApplyEach]
  | cons c rest ih =>
    simp only [fileApplyEach]
    rw [mtokens_cons, mtokens_cons, mtok_fileApply, ih]

theorem fileApply_clean : ∀ (n : Nat) (t : Node), sizeOf t ≤ n →
    wellGated t = true → CleanSim t →
    InnerFFree (fileApply t) ∧ CleanSim (fileApply t) := by
  intro n
  induction n with
  | zero =>
    intro t hle
    cases t with
    | mk k a g r cs => simp at hle
  | succ n ih =>
    intro t hle hwg hcs
    cases t with
    | mk k a g r cs =>
      rw [wellGated_mk] at hwg
      simp only [Bool.and_eq_true] at hwg
      obtain ⟨⟨hok, hfp⟩, hwl⟩ := hwg
      have hclean : CleanSimL cs := CleanSim_children _ hcs
      have hds : ∀ d ∈ fileApplyEach cs, CleanSim d ∧ InnerFFree d := by
        rw [fileApplyEach_eq_map]
        intro d hd
        obtain ⟨c, hc, rfl⟩ := List.mem_map.mp hd
        have hsize : sizeOf c ≤ n := by
          have h1 := List.sizeOf_lt_of_mem hc
          have h2 : sizeOf (Node.mk k a g r cs) ≤ n + 1 := hle
          simp at h2
          omega
        have hres := ih c hsize ((wellGatedL_iff cs).mp hwl c hc)
          ((CleanSimL_iff cs).mp hclean c hc)
        exact ⟨hres.2, hres.1⟩
      have htoks : mtokens (fileApplyEach cs) = mtokens cs := mtokens_fileApplyEach cs
      have hfp' : filePairs (mtokens (fileApplyEach cs)) = true := by
        rw [htoks]
        rw [← mtokens_filter_file_of_clean cs ((CleanSimL_iff cs).mp hclean)]
        exact hfp
      obtain ⟨hF, hC⟩ := fileApplyList_clean_aux (fileApplyEach cs).length
        (fileApplyEach cs) le_rfl hfp' hds
      rw [fileApply_mk]
      constructor
      · unfold InnerFFree
        simp only [Node.children]
        exact hF
      · have hks : k ≠ Kind.spice_simulation_start ∧ k ≠ Kind.spice_simulation_end := by
          unfold CleanSim at hcs
          rw [containsKind_mk, containsKind_mk] at hcs
          obtain ⟨hs, he⟩ := hcs
          constructor
          · rcases Bool.or_eq_false_iff.mp hs with ⟨h1, _⟩
            simpa using h1
          · rcases Bool.or_eq_false_iff.mp he with ⟨h1, _⟩
            simpa using h1
        apply CleanSim_of_kind
        · simp only [Node.kind]
          exact hks.1
        · simp only [Node.kind]
          exact hks.2
        · simp only [Node.children]
          exact hC

/-- Claim C2 (amended): for a well-gated document — every simulation start is
immediately followed, among the gated markers of its own sibling list, by a
simulation end, and gated file nodes pair with file end markers in their own
sibling list — the merge transforms eliminate every spice_simulation_start,
spice_simulation_end and spice_file_end marker from the tree.  Acceptance by
the structural validator alone does not suffice, as the counterexample above
shows; the markers must pair up within sibling lists. -/
theorem C2_marker_elimination (t : Node) (hdoc : t.kind = Kind.document)
    (h : wellGated t = true) :
    containsKind Kind.spice_simulation_start (applyMergeTransforms t) = false ∧
    containsKind Kind.spice_simulation_end (applyMergeTransforms t) = false ∧
    containsKind Kind.spice_file_end (applyMergeTransforms t) = false := by
  obtain ⟨huw, hui⟩ := simApply_clean (sizeOf t) t le_rfl h
  have hucs : CleanSim (simApply t) := by
    apply CleanSim_of_kind
    · rw [simApply_kind, hdoc]
      simp
    · rw [simApply_kind, hdoc]
      simp
    · exact hui
  obtain ⟨hvF, hvC⟩ := fileApply_clean (sizeOf (simApply t)) (simApply t) le_rfl huw hucs
  unfold applyMergeTransforms
  refine ⟨hvC.1, hvC.2, ?_⟩
  have hk : (fileApply (simApply t)).kind = Kind.document := by
    rw [fileApply_kind, simApply_kind, hdoc]
  cases hv : fileApply (simApply t) with
  | mk k a g r cs =>
    rw [containsKind_mk]
    rw [hv] at hk hvF
    simp only [Node.kind] at hk
    subst hk
    unfold InnerFFree at hvF
    simp only [Node.children] at hvF
    simp [hvF.1]

theorem simApplyList_cons_start_nosplit (c : Node) (rest : List Node)
    (hk : c.kind = Kind.spice_simulation_start)
    (hs : splitAtEnd Kind.spice_simulation_end rest = none) :
    simApplyList (c :: rest) = c :: simApplyList rest := by
  show simApplyListF (c :: rest).length (c :: rest) = _
  simp only [List.length_cons, simApplyListF]
  rw [if_pos hk, hs]
  rw [simApplyListF_fuel rest.length rest le_rfl]

/-- Claim C2, counterexample: a document whose gated simulation start sits at
the top level while its end marker sits one sibling level deeper passes the
structural validator (its depth-first token sequence is SE), yet the start
marker survives both merge transforms, because the merge only pairs markers
within one sibling list. -/
theorem C2_counterexample :
    check_structure [("doc", docRecord "spice_simulation" danglingDoc)] "doc" = [] ∧
    containsKind Kind.spice_simulation_start (applyMergeTransforms danglingDoc) = true := by
  have hEnd : simApply dangEnd = dangEnd := by
    rw [dangEnd, simApply_mk, simApplyEach, simApplyList_nil]
  have hStart : simApply dangStart = dangStart := by
    rw [dangStart, simApply_mk, simApplyEach, simApplyList_nil]
  have hSec : simApply dangSection = dangSection := by
    rw [dangSection, simApply_mk, simApplyEach, simApplyEach, hEnd]
    rw [simApplyList_cons_other dangEnd [] (by rw [dangEnd]; simp [Node.kind])]
    rw [simApplyList_nil]
  have hsplit : splitAtEnd Kind.spice_simulation_end [dangSection] = none := by
    rw [splitAtEnd]
    rw [if_neg (by rw [dangSection]; simp [Node.kind])]
    rw [splitAtEnd]
  have hsim : simApply danglingDoc = danglingDoc := by
    rw [danglingDoc, simApply_mk, simApplyEach, simApplyEach, simApplyEach, hStart, hSec]
    rw [simApplyList_cons_start_nosplit dangStart [dangSection]
      (by rw [dangStart]; simp [Node.kind]) hsplit]
    rw [simApplyList_cons_other dangSection [] (by rw [dangSection]; simp [Node.kind])]
    rw [simApplyList_nil]
  have hEndF : fileApply dangEnd = dangEnd := by
    rw [dangEnd, fileApply_mk, fileApplyEach, fileApplyList_nil]
  have hStartF : fileApply dangStart = dangStart := by
    rw [dangStart, fileApply_mk, fileApplyEach, fileApplyList_nil]
  have hSecF : fileApply dangSection = dangSection := by
    rw [dangSection, fileApply_mk, fileApplyEach, fileApplyEach, hEndF]
    rw [fileApplyList_cons_other dangEnd [] (by rw [dangEnd]; simp [Node.kind, isFileKind])]
    rw [fileApplyList_nil]
  have hfile : fileApply danglingDoc = danglingDoc := by
    rw [danglingDoc, fileApply_mk, fileApplyEach, fileApplyEach, fileApplyEach, hStartF, hSecF]
    rw [fileApplyList_cons_other dangStart [dangSection]
      (by rw [dangStart]; simp [Node.kind, isFileKind])]
    rw [fileApplyList_cons_other dangSection [] (by rw [dangSection]; simp [Node.kind, isFileKind])]
    rw [fileApplyList_nil]
  constructor
  · decide
  · rw [applyMergeTransforms, hsim, hfile]
    decide

theorem simApplyList_id (ds : List Node)
    (h : ∀ c ∈ ds, c.kind ≠ Kind.spice_simulation_start) :
    simApplyList ds = ds := by
  induction ds with
  | nil => exact simApplyList_nil
  | cons c rest ih =>
    rw [simApplyList_cons_other c rest (h c (by simp))]
    rw [ih (fun x hx => h x (by simp [hx]))]

theorem containsKind_root (k : Kind) (n : Node) (h : containsKind k n = false) :
    n.kind ≠ k ∧ containsKindL k n.children = false := by
  cases n with
  | mk k0 a g r cs =>
    rw [containsKind_mk] at h
    rcases Bool.or_eq_false_iff.mp h with ⟨h1, h2⟩
    exact ⟨by simpa using h1, h2⟩

theorem simApply_id : ∀ (n : Nat) (t : Node), sizeOf t ≤ n →
    containsKind Kind.spice_simulation_start t = false → simApply t = t := by
  intro n
  induction n with
  | zero =>
    intro t hle
    cases t with
    | mk k a g r cs => simp at hle
  | succ n ih =>
    intro t hle h
    cases t with
    | mk k a g r cs =>
      obtain ⟨hk, hcs⟩ := containsKind_root _ _ h
      simp only [Node.children] at hcs
      rw [simApply_mk]
      have heach : simApplyEach cs = cs := by
        rw [simApplyEach_eq_map]
        have : ∀ c ∈ cs, simApply c = c := by
          intro c hc
          have hsize : sizeOf c ≤ n := by
            have h1 := List.sizeOf_lt_of_mem hc
            have h2 : sizeOf (Node.mk k a g r cs) ≤ n + 1 := hle
            simp at h2
            omega
          exact ih c hsize ((containsKindL_eq_false_iff _ _).mp hcs c hc)
        calc cs.map simApply = cs.map id := List.map_congr_left this
          _ = cs := List.map_id cs
      rw [heach]
      rw [simApplyList_id cs (fun c hc =>
        (containsKind_root _ c ((containsKindL_eq_false_iff _ _).mp hcs c hc)).1)]

theorem fileApplyList_id (ds : List Node)
    (h : ∀ c ∈ ds, (isFileKind c.kind && c.gated) = false) :
    fileApplyList ds = ds := by
  induction ds with
  | nil => exact fileApplyList_nil
  | cons c rest ih =>
    have hrest := ih (fun x hx => h x (by simp [hx]))
    by_cases hfk : isFileKind c.kind = true
    · have hg : c.gated = false := by
        have := h c (by simp)
        rw [hfk] at this
        simpa using this
      rw [fileApplyList_cons_ungated c rest hfk hg, setGated_false_of_ungated c hg, hrest]
    · rw [fileApplyList_cons_other c rest (by simpa using hfk), hrest]

theorem anyGatedFile_root (n : Node) (h : anyGatedFile n = false) :
    (isFileKind n.kind && n.gated) = false ∧ anyGatedFileL n.children = false := by
  cases n with
  | mk k0 a g r cs =>
    simp only [anyGatedFile] at h
    rcases Bool.or_eq_false_iff.mp h with ⟨h1, h2⟩
    exact ⟨h1, h2⟩

theorem fileApply_id : ∀ (n : Nat) (t : Node), sizeOf t ≤ n →
    anyGatedFile t = false → fileApply t = t := by
  intro n
  induction n with
  | zero =>
    intro t hle
    cases t with
    | mk k a g r cs => simp at hle
  | succ n ih =>
    intro t hle h
    cases t with
    | mk k a g r cs =>
      obtain ⟨hk, hcs⟩ := anyGatedFile_root _ h
      simp only [Node.children] at hcs
      rw [fileApply_mk]
      have heach : fileApplyEach cs = cs := by
        rw [fileApplyEach_eq_map]
        have : ∀ c ∈ cs, fileApply c = c := by
          intro c hc
          have hsize : sizeOf c ≤ n := by
            have h1 := List.sizeOf_lt_of_mem hc
            have h2 : sizeOf (Node.mk k a g r cs) ≤ n + 1 := hle
            simp at h2
            omega
          exact ih c hsize ((anyGatedFileL_eq_false_iff _).mp hcs c hc)
        calc cs.map fileApply = cs.map id := List.map_congr_left this
          _ = cs := List.map_id cs
      rw [heach]
      rw [fileApplyList_id cs (fun c hc =>
        (anyGatedFile_root c ((anyGatedFileL_eq_false_iff _).mp hcs c hc)).1)]

theorem simApply_id_inner (t : Node)
    (h : containsKindL Kind.spice_simulation_start t.children = false) :
    simApply t = t := by
  cases t with
  | mk k a g r cs =>
    simp only [Node.children] at h
    rw [simApply_mk]
    have heach : simApplyEach cs = cs := by
      rw [simApplyEach_eq_map]
      have : ∀ c ∈ cs, simApply c = c := fun c hc =>
        simApply_id (sizeOf c) c le_rfl ((containsKindL_eq_false_iff _ _).mp h c hc)
      calc cs.map simApply = cs.map id := List.map_congr_left this
        _ = cs := List.map_id cs
    rw [heach]
    rw [simApplyList_id cs (fun c hc =>
      (containsKind_root _ c ((containsKindL_eq_false_iff _ _).mp h c hc)).1)]

theorem fileApply_id_inner (t : Node)
    (h : anyGatedFileL t.children = false) :
    fileApply t = t := by
  cases t with
  | mk k a g r cs =>
    simp only [Node.children] at h
    rw [fileApply_mk]
    have heach : fileApplyEach cs = cs := by
      rw [fileApplyEach_eq_map]
      have : ∀ c ∈ cs, fileApply c = c := fun c hc =>
        fileApply_id (sizeOf c) c le_rfl ((anyGatedFileL_eq_false_iff _).mp h c hc)
      calc cs.map fileApply = cs.map id := List.map_congr_left this
        _ = cs := List.map_id cs
    rw [heach]
    rw [fileApplyList_id cs (fun c hc =>
      (anyGatedFile_root c ((anyGatedFileL_eq_false_iff _).mp h c hc)).1)]

theorem duplicate_labels_empty (docname l : String) :
    duplicate_labels [] docname l = (false, []) := by
  unfold duplicate_labels
  cases h : (l == "") <;> simp [h, List.lookup]

theorem map_fix {α : Type} (f : α → α) (l : List α) (h : ∀ x ∈ l, f x = x) :
    l.map f = l := by
  calc l.map f = l.map id := List.map_congr_left h
    _ = l := List.map_id l

theorem C3merge_file (a : Attrs) (kf : Kind) (hkf : isFileKind kf = true)
    (title0 : Node)
    (hTs : containsKind Kind.spice_simulation_start title0 = false)
    (hTg : anyGatedFile title0 = false)
    (cs : List Node)
    (hcsS : containsKindL Kind.spice_simulation_start cs = false)
    (hcsFE : containsKindL Kind.spice_file_end cs = false)
    (hcsG : anyGatedFileL cs = false) :
    applyMergeTransforms (docNode
        (Node.mk kf a true false
          [title0, .mk Kind.sectionN (sectionIds "spice_file-content") false false []] ::
          (cs ++ [fileEndOutput]))) =
      docNode
        [Node.mk kf
          { a with classes := a.classes.map stripStart, type := stripStart a.type }
          false false
          [title0, .mk Kind.sectionN (sectionIds "spice_file-content") false false cs]] := by
  have hkfS : kf ≠ Kind.spice_simulation_start := by
    cases kf <;> simp_all [isFileKind]
  have hkfFE : kf ≠ Kind.spice_file_end := by
    cases kf <;> simp_all [isFileKind]
  have hstart : containsKind Kind.spice_simulation_start
      (Node.mk kf a true false
        [title0, .mk Kind.sectionN (sectionIds "spice_file-content") false false []]) =
      false := by
    rw [containsKind_mk]
    simp only [containsKindL, hTs]
    simp [hkfS, containsKind_mk, containsKindL]
  have hchS : containsKindL Kind.spice_simulation_start
      (Node.mk kf a true false
        [title0, .mk Kind.sectionN (sectionIds "spice_file-content") false false []] ::
        (cs ++ [fileEndOutput])) = false := by
    simp only [containsKindL, containsKindL_append, hstart, hcsS]
    decide
  unfold applyMergeTransforms
  rw [simApply_id_inner _ (by simpa [docNode, Node.children] using hchS)]
  -- Stage 2: the file merge pass collapses the gated pair
  rw [docNode, fileApply_mk]
  have heach : fileApplyEach
      (Node.mk kf a true false
        [title0, .mk Kind.sectionN (sectionIds "spice_file-content") false false []] ::
        (cs ++ [fileEndOutput])) =
      (Node.mk kf a true false
        [title0, .mk Kind.sectionN (sectionIds "spice_file-content") false false []] ::
        (cs ++ [fileEndOutput])) := by
    rw [fileApplyEach_eq_map]
    apply map_fix
    intro x hx
    rcases List.mem_cons.mp hx with rfl | hx2
    · apply fileApply_id_inner
      simp only [Node.children, anyGatedFileL]
      rw [Bool.or_eq_false_iff, Bool.or_eq_false_iff]
      refine ⟨hTg, ?_, rfl⟩
      simp [anyGatedFile, anyGatedFileL, isFileKind]
    · rcases List.mem_append.mp hx2 with hx3 | hx4
      · exact fileApply_id (sizeOf x) x le_rfl
          ((anyGatedFileL_eq_false_iff cs).mp hcsG x hx3)
      · simp at hx4
        subst hx4
        apply fileApply_id_inner
        simp [fileEndOutput, Node.children, anyGatedFileL]
  rw [heach]
  have hsplit : splitAtEnd Kind.spice_file_end (cs ++ [fileEndOutput]) = some (cs, []) :=
    splitAtEnd_of_decomp _ cs fileEndOutput []
      (fun x hx => (containsKind_root _ x
        ((containsKindL_eq_false_iff _ cs).mp hcsFE x hx)).1)
      (by simp [fileEndOutput, Node.kind])
  rw [fileApplyList_cons_gated _ _ cs [] (by simp [Node.kind, hkf]) (by rfl) hsplit]
  rw [fileApplyList_nil]
  congr 1

theorem C3aux_file (docname : String) (serial : Nat) (l : String)
    (hl : (l == "") = false)
    (classOpt : List String) (hcls : ∀ s ∈ classOpt, stripStart s = s)
    (sub : Option (List Node))
    (hTs : containsKind Kind.spice_simulation_start (fileTitleNode sub) = false)
    (hTg : anyGatedFile (fileTitleNode sub) = false)
    (nonum : Bool) (cs : List Node)
    (hcsS : containsKindL Kind.spice_simulation_start cs = false)
    (hcsFE : containsKindL Kind.spice_file_end cs = false)
    (hcsG : anyGatedFileL cs = false) :
    applyMergeTransforms (docNode
        ((fileRun [] docname serial "spice_file-start"
            { label := some l, classOpt := classOpt, nonumber := nonum, hidden := false }
            sub []).output ++ cs ++ [fileEndOutput])) =
      docNode (fileRun [] docname serial "spice_file"
        { label := some l, classOpt := classOpt, nonumber := nonum, hidden := false }
        sub cs).output := by
  have hlab : fileLabel docname serial (some l) = l := by simp [fileLabel, hl]
  have hdup : duplicate_labels [] docname l = (false, []) := duplicate_labels_empty docname l
  have hout1 : (fileRun [] docname serial "spice_file-start"
      { label := some l, classOpt := classOpt, nonumber := nonum, hidden := false }
      sub []).output =
      [Node.mk (if nonum then Kind.spice_file else Kind.spice_file_enumerable)
        { label := l, classes := ["spice_file-start"] ++ classOpt, ids := [l],
          docname := docname, title := "spice_file", type := "spice_file-start",
          hidden := false, serial_number := serial }
        true false
        [fileTitleNode sub,
         .mk Kind.sectionN (sectionIds "spice_file-content") false false []]] := by
    simp [fileRun, fileLabel, hl, duplicate_labels_empty]
  have hout2 : (fileRun [] docname serial "spice_file"
      { label := some l, classOpt := classOpt, nonumber := nonum, hidden := false }
      sub cs).output =
      [Node.mk (if nonum then Kind.spice_file else Kind.spice_file_enumerable)
        { label := l, classes := ["spice_file"] ++ classOpt, ids := [l],
          docname := docname, title := "spice_file", type := "spice_file",
          hidden := false, serial_number := serial }
        false false
        [fileTitleNode sub,
         .mk Kind.sectionN (sectionIds "spice_file-content") false false cs]] := by
    simp [fileRun, fileLabel, hl, duplicate_labels_empty]
  rw [hout1, hout2]
  have hmerge := C3merge_file
    { label := l, classes := ["spice_file-start"] ++ classOpt, ids := [l],
      docname := docname, title := "spice_file", type := "spice_file-start",
      hidden := false, serial_number := serial }
    (if nonum then Kind.spice_file else Kind.spice_file_enumerable)
    (by cases nonum <;> simp [isFileKind])
    (fileTitleNode sub) hTs hTg cs hcsS hcsFE hcsG
  simp only [List.cons_append, List.nil_append, List.append_assoc]
  simp only [List.cons_append, List.nil_append, List.append_assoc] at hmerge
  rw [hmerge]
  have hstrip : stripStart "spice_file-start" = "spice_file" := by decide
  have hcl : List.map stripStart ("spice_file-start" :: classOpt) =
      "spice_file" :: classOpt := by
    rw [List.map_cons, map_fix stripStart classOpt hcls, hstrip]
  rw [hcl, hstrip]

theorem C3merge_sim (a : Attrs) (title0 : Node)
    (hTns : title0.kind ≠ Kind.sectionN)
    (hTs : containsKind Kind.spice_simulation_start title0 = false)
    (hTg : anyGatedFile title0 = false)
    (cs : List Node)
    (hcsS : containsKindL Kind.spice_simulation_start cs = false)
    (hcsE : containsKindL Kind.spice_simulation_end cs = false)
    (hcsG : anyGatedFileL cs = false) :
    applyMergeTransforms (docNode
        (Node.mk Kind.spice_simulation_start a false false
          [title0, .mk Kind.sectionN (sectionIds "spice_simulation-content") false false []] ::
          (cs ++ [simEndOutput]))) =
      docNode
        [Node.mk Kind.spice_simulation
          { a with
              classes := a.classes.map
                (replaceAll "spice_simulation-start" "spice_simulation"),
              type := "spice_simulation" }
          false false
          [title0, .mk Kind.sectionN (sectionIds "spice_simulation-content") false false cs]] := by
  unfold applyMergeTransforms
  rw [docNode, simApply_mk]
  have heach : simApplyEach
      (Node.mk Kind.spice_simulation_start a false false
        [title0, .mk Kind.sectionN (sectionIds "spice_simulation-content") false false []] ::
        (cs ++ [simEndOutput])) =
      (Node.mk Kind.spice_simulation_start a false false
        [title0, .mk Kind.sectionN (sectionIds "spice_simulation-content") false false []] ::
        (cs ++ [simEndOutput])) := by
    rw [simApplyEach_eq_map]
    apply map_fix
    intro x hx
    rcases List.mem_cons.mp hx with rfl | hx2
    · apply simApply_id_inner
      simp only [Node.children, containsKindL]
      rw [Bool.or_eq_false_iff, Bool.or_eq_false_iff]
      refine ⟨hTs, ?_, rfl⟩
      decide
    · rcases List.mem_append.mp hx2 with hx3 | hx4
      · exact simApply_id (sizeOf x) x le_rfl
          ((containsKindL_eq_false_iff _ cs).mp hcsS x hx3)
      · simp at hx4
        subst hx4
        apply simApply_id_inner
        simp [simEndOutput, Node.children, containsKindL]
  rw [heach]
  have hsplit : splitAtEnd Kind.spice_simulation_end (cs ++ [simEndOutput]) =
      some (cs, []) :=
    splitAtEnd_of_decomp _ cs simEndOutput []
      (fun x hx => (containsKind_root _ x
        ((containsKindL_eq_false_iff _ cs).mp hcsE x hx)).1)
      (by simp [simEndOutput, Node.kind])
  rw [simApplyList_cons_start _ _ cs [] (by simp [Node.kind]) hsplit]
  rw [simApplyList_nil]
  have hbuild : buildSimNode
      (Node.mk Kind.spice_simulation_start a false false
        [title0, .mk Kind.sectionN (sectionIds "spice_simulation-content") false false []])
      cs =
      Node.mk Kind.spice_simulation
        { a with
            classes := a.classes.map
              (replaceAll "spice_simulation-start" "spice_simulation"),
            type := "spice_simulation" }
        false false
        [title0, .mk Kind.sectionN (sectionIds "spice_simulation-content") false false cs] := by
    unfold buildSimNode
    simp only [Node.attrs, Node.children]
    rw [List.filter_cons, List.filter_cons]
    rw [if_pos (by simpa using hTns)]
    rw [if_neg (by simp [Node.kind])]
    simp
  rw [hbuild]
  apply fileApply_id_inner
  simp only [Node.children, anyGatedFileL]
  rw [Bool.or_eq_false_iff]
  constructor
  · simp [anyGatedFile, anyGatedFileL, isFileKind, hTg, hcsG]
  · rfl

theorem C3aux_sim (docname : String) (serial : Nat) (l : String)
    (hl : (l == "") = false)
    (classOpt : List String)
    (hcls : ∀ s ∈ classOpt,
      replaceAll "spice_simulation-start" "spice_simulation" s = s)
    (target : String) (cs : List Node)
    (hcsS : containsKindL Kind.spice_simulation_start cs = false)
    (hcsE : containsKindL Kind.spice_simulation_end cs = false)
    (hcsG : anyGatedFileL cs = false) :
    applyMergeTransforms (docNode
        ((simRun [] docname serial "spice_simulation-start"
            Kind.spice_simulation_start false target
            { label := some l, classOpt := classOpt } []).output ++
          cs ++ [simEndOutput])) =
      docNode (simRun [] docname serial "spice_simulation"
        Kind.spice_simulation false target
        { label := some l, classOpt := classOpt } cs).output := by
  have hlab : simLabel docname serial (some l) = l := by simp [simLabel, hl]
  have hout1 : (simRun [] docname serial "spice_simulation-start"
      Kind.spice_simulation_start false target
      { label := some l, classOpt := classOpt } []).output =
      [Node.mk Kind.spice_simulation_start
        { label := l, classes := ["spice_simulation-start"] ++ classOpt, ids := [l],
          docname := docname, title := astext simTitleNode,
          type := "spice_simulation-start", hidden := false, serial_number := serial,
          target_label := target }
        false false
        [simTitleNode,
         .mk Kind.sectionN (sectionIds "spice_simulation-content") false false []]] := by
    simp [simRun, simLabel, hl, duplicate_labels_empty]
  have hout2 : (simRun [] docname serial "spice_simulation"
      Kind.spice_simulation false target
      { label := some l, classOpt := classOpt } cs).output =
      [Node.mk Kind.spice_simulation
        { label := l, classes := ["spice_simulation"] ++ classOpt, ids := [l],
          docname := docname, title := astext simTitleNode,
          type := "spice_simulation", hidden := false, serial_number := serial,
          target_label := target }
        false false
        [simTitleNode,
         .mk Kind.sectionN (sectionIds "spice_simulation-content") false false cs]] := by
    simp [simRun, simLabel, hl, duplicate_labels_empty]
  rw [hout1, hout2]
  have hmerge := C3merge_sim
    { label := l, classes := ["spice_simulation-start"] ++ classOpt, ids := [l],
      docname := docname, title := astext simTitleNode,
      type := "spice_simulation-start", hidden := false, serial_number := serial,
      target_label := target }
    simTitleNode (by simp [simTitleNode, Node.kind])
    (by decide) (by decide)
    cs hcsS hcsE hcsG
  simp only [List.cons_append, List.nil_append, List.append_assoc]
  simp only [List.cons_append, List.nil_append, List.append_assoc] at hmerge
  rw [hmerge]
  have hrep : replaceAll "spice_simulation-start" "spice_simulation"
      "spice_simulation-start" = "spice_simulation" := by decide
  have hcl : List.map (replaceAll "spice_simulation-start" "spice_simulation")
      ("spice_simulation-start" :: classOpt) = "spice_simulation" :: classOpt := by
    rw [List.map_cons, map_fix _ classOpt hcls, hrep]
  rw [hcl]

theorem lookup_append_right {α : Type} [BEq α] (reg : List (α × RegEntry)) (k l : α)
    (e : RegEntry) (h : reg.lookup k = none) :
    (reg ++ [(l, e)]).lookup k = if k == l then some e else none := by
  induction reg with
  | nil =>
    simp only [List.nil_append, List.lookup]
    cases hk : (k == l) <;> simp [hk]
  | cons p rest ih =>
    cases p with
    | mk k0 v0 =>
      simp only [List.lookup] at h ⊢
      cases hk : (k == k0) with
      | true => rw [hk] at h; simp at h
      | false =>
        rw [hk] at h
        simp only [List.cons_append, List.lookup, hk]
        exact ih h

theorem lookup_setRecord (reg : List (String × GatedRecord)) (d : String)
    (r : GatedRecord) : (setRecord reg d r).lookup d = some r := by
  induction reg with
  | nil => simp [setRecord, List.lookup]
  | cons p rest ih =>
    cases p with
    | mk k v =>
      by_cases hk : k = d
      · subst hk
        simp [setRecord, List.lookup]
      · simp only [setRecord]
        rw [if_neg hk]
        simp only [List.lookup]
        have : (d == k) = false := by
          simp
          exact fun hc => hk hc.symm
        rw [this]
        exact ih

/-- Claim C6, counterexample: the sequence file-start, simulation-start,
file-end, simulation-end — properly nested if each kind were tracked
separately — is recorded as the single shared sequence SSEE of one
per-document record and rejected by the validator with the nested error. -/
theorem C6_counterexample :
    interleavedReg =
      [("doc",
        { start := [1, 2], endL := [3, 4],
          sequence := [Tok.S, Tok.S, Tok.E, Tok.E],
          msg := ["spice_file-start at line: 1", "spice_simulation-start at line: 2",
                  "spice_file-end at line: 3", "spice_simulation-end at line: 4"],
          type := "spice_file" })] ∧
    check_structure interleavedReg "doc" = [GateError.nested] := by
  constructor
  · decide
  · decide

/-- Claim C6 (amended): all four gated tracker directives write to one
per-document record of the same registry, keyed by the document name only:
file and simulation markers share a single start, end and sequence
bookkeeping rather than being tracked per directive kind. -/
theorem C6_shared_registry (reg : List (String × GatedRecord)) (doc : String)
    (ln : Nat) (r : GatedRecord) (h : reg.lookup doc = some r) :
    (recordSimStart reg doc ln).lookup doc = some
      { r with
          start := r.start ++ [ln]
          sequence := r.sequence ++ [Tok.S]
          msg := r.msg ++ ["spice_simulation-start at line: " ++ toString ln] } ∧
    (recordFileStart reg doc ln).lookup doc = some
      { r with
          start := r.start ++ [ln]
          sequence := r.sequence ++ [Tok.S]
          msg := r.msg ++ ["spice_file-start at line: " ++ toString ln] } ∧
    (recordSimEnd reg doc ln).lookup doc = some
      { r with
          endL := r.endL ++ [ln]
          sequence := r.sequence ++ [Tok.E]
          msg := r.msg ++ ["spice_simulation-end at line: " ++ toString ln] } ∧
    (recordFileEnd reg doc ln).lookup doc = some
      { r with
          endL := r.endL ++ [ln]
          sequence := r.sequence ++ [Tok.E]
          msg := r.msg ++ ["spice_file-end at line: " ++ toString ln] } := by
  refine ⟨?_, ?_, ?_, ?_⟩ <;>
    simp [recordSimStart, recordFileStart, recordSimEnd, recordFileEnd,
      gatedUpdate, h, lookup_setRecord]

/-- Claim C4, counterexample: the simulation registry entry aliases the live
node — setting resolved_title on the live output node is visible through the
registry view, while the unmutated view shows it unset — so the registry does
not hold an immutable snapshot for simulations. -/
theorem C4_counterexample :
    Node.resolvedTitle (registryView simEntry0 (Node.setResolvedTitle true simLive0)) = true ∧
    Node.resolvedTitle (registryView simEntry0 simLive0) = false := by
  constructor
  · decide
  · decide

/-- Claim C4 (amended): a spice_file registration stores a deep copy of the
node, so later mutation of the live tree is invisible through the registry;
a spice_simulation registration instead stores the live node itself, so
mutations remain visible.  The claim that registration isolates the stored
node from the document tree holds only for the file directives. -/
theorem C4_registry_aliasing
    (reg : List (String × RegEntry)) (docname : String) (serial : Nat)
    (nameF nameS : String) (optsF optsS : Options) (sub : Option (List Node))
    (contentF contentS : List Node) (nodeKind : Kind) (target : String)
    (lf : String) (ef : RegEntry)
    (hf : ((fileRun reg docname serial nameF optsF sub contentF).registry).lookup lf = some ef)
    (hfnew : reg.lookup lf = none)
    (ls : String) (es : RegEntry)
    (hs : ((simRun reg docname serial nameS nodeKind false target optsS contentS).registry).lookup ls = some es)
    (hsnew : reg.lookup ls = none) :
    (ef.aliased = false ∧ ∀ live, registryView ef live = ef.node) ∧
    (es.aliased = true ∧ ∀ live, registryView es live = live) := by
  constructor
  · have hef : ef.aliased = false := by
      simp [fileRun] at hf
      rcases hdl : duplicate_labels reg docname (fileLabel docname serial optsF.label)
        with ⟨b, ws⟩
      rw [hdl] at hf
      cases b with
      | true =>
        simp only at hf
        rw [hfnew] at hf
        exact absurd hf (by simp)
      | false =>
        simp only at hf
        rw [lookup_append_right reg lf _ _ hfnew] at hf
        cases hkl : (lf == fileLabel docname serial optsF.label) with
        | true => rw [hkl] at hf; simp at hf; rw [← hf]
        | false => rw [hkl] at hf; simp at hf
    refine ⟨hef, ?_⟩
    intro live
    unfold registryView
    rw [hef]
    simp
  · have hes : es.aliased = true := by
      simp [simRun] at hs
      rcases hdl : duplicate_labels reg docname (simLabel docname serial optsS.label)
        with ⟨b, ws⟩
      rw [hdl] at hs
      cases b with
      | true =>
        simp only at hs
        rw [hsnew] at hs
        exact absurd hs (by simp)
      | false =>
        simp only at hs
        rw [lookup_append_right reg ls _ _ hsnew] at hs
        cases hkl : (ls == simLabel docname serial optsS.label) with
        | true => rw [hkl] at hs; simp at hs; rw [← hs]
        | false => rw [hkl] at hs; simp at hs
    refine ⟨hes, ?_⟩
    intro live
    unfold registryView
    rw [hes]
    simp

/-- Claim C7: registering a label that is already present in the registry
leaves the registry unchanged, suppresses the directive output entirely and
emits one duplicate-label warning naming the path of the other instance, at
the current document — the first registration wins, for both directive
kinds. -/
theorem C7_first_wins (reg : List (String × RegEntry)) (docname : String) (serial : Nat)
    (nameF nameS : String) (opts : Options) (sub : Option (List Node)) (content : List Node)
    (nodeKind : Kind) (target : String) (l : String) (e : RegEntry)
    (hopt : opts.label = some l) (hl : (l == "") = false)
    (hdup : reg.lookup l = some e) :
    fileRun reg docname serial nameF opts sub content =
      { registry := reg, output := [],
        warnings := [("duplicate label: " ++ l ++ "; other instance in " ++
          doc2path e.docname, docname)] } ∧
    simRun reg docname serial nameS nodeKind false target opts content =
      { registry := reg, output := [],
        warnings := [("duplicate label: " ++ l ++ "; other instance in " ++
          doc2path e.docname, docname)] } := by
  have hlabf : fileLabel docname serial opts.label = l := by
    rw [hopt]; simp [fileLabel, hl]
  have hlabs : simLabel docname serial opts.label = l := by
    rw [hopt]; simp [simLabel, hl]
  have hdl : duplicate_labels reg docname l =
      (true, [("duplicate label: " ++ l ++ "; other instance in " ++
        doc2path e.docname, docname)]) := by
    unfold duplicate_labels
    rw [if_neg (by simp [hl])]
    rw [hdup]
  constructor
  · simp [fileRun, hlabf, hdl]
  · simp [simRun, hlabs, hdl]

/-- Claim C10: a pending_xref carrying explicit author link text (refexplicit)
whose non-numref target resolves to an enumerable file node is left completely
unchanged by the reference-upgrade pass — author-supplied text is never
overwritten. -/
theorem C10_explicit_text (reg : List (String × RegEntry)) (node : Node) (e : RegEntry)
    (h1 : node.attrs.reftype ≠ "numref")
    (h2 : reg.lookup node.attrs.reftarget = some e)
    (h3 : e.node.kind = Kind.spice_file_enumerable)
    (h4 : node.attrs.refexplicit = true) :
    updateRefNode reg node = some node := by
  unfold updateRefNode
  rw [if_pos h1, h2]
  simp only [h3, if_pos rfl, h4]
  simp

/-- Claim C5 (amended): a simulation whose target label is not in the registry
produces exactly one undefined-label warning located at the current document,
keeps the placeholder node unchanged and does not abort the build; but the
pass then returns instead of continuing, so every simulation node occurring
later in the document is left unprocessed. -/
theorem C5_undefined_target (numberOf : Node → Nat) (relUri : String → String → String)
    (docname : String) (reg : List (String × RegEntry)) (a : Attrs) (g r : Bool)
    (g0 : Node) (post : List Node)
    (hg : g0.kind = Kind.spice_simulation)
    (hmiss : reg.lookup g0.attrs.target_label = none) :
    resolveSimsNode numberOf relUri docname reg
        (Node.mk Kind.document a g r (g0 :: post)) =
      (Node.mk Kind.document a g r (g0 :: post), reg,
        [("undefined label: " ++ g0.attrs.target_label, docname)], false) := by
  cases g0 with
  | mk k0 a0 g0b r0 cs0 =>
    simp only [Node.kind] at hg
    subst hg
    simp only [Node.attrs] at hmiss ⊢
    have hginner : resolveSimsNode numberOf relUri docname reg
        (Node.mk Kind.spice_simulation a0 g0b r0 cs0) =
        (Node.mk Kind.spice_simulation a0 g0b r0 cs0, reg,
          [("undefined label: " ++ a0.target_label, docname)], false) := by
      simp only [resolveSimsNode]
      rw [if_pos trivial]
      simp only [Node.attrs]
      rw [hmiss]
      rfl
    simp only [resolveSimsNode]
    rw [if_neg (by simp)]
    simp only [resolveSimsList]
    rw [hginner]
    rfl

/-- Claim C5, counterexample: scanning a document holding a simulation with an
unregistered target followed by a resolvable simulation warns once and leaves
the second simulation unresolved, although that same second simulation is
resolved when it is scanned on its own — the failing lookup ends the whole
pass instead of skipping one node. -/
theorem C5_counterexample :
    c5run.2.2.1 = [("undefined label: ghost", "doc")] ∧
    Node.resolvedTitle (c5run.1.children.getD 1 (textN "")) = false ∧
    Node.resolvedTitle (c5runGood.1.children.getD 0 (textN "")) = true := by
  refine ⟨by decide, by decide, by decide⟩

/-- Claim C8: a reference whose refid resolves to a registered simulation node
has the children of its displayed inline replaced by a single text node
holding the composed title text of the simulation (the astext of the first
child of its resolved title); a target whose title is not yet resolved is
resolved synchronously from its target file entry first. -/
theorem C8_link_text (latex : Bool) (numberOf : Node → Nat)
    (relUri : String → String → String) (curDoc : String)
    (reg : List (String × RegEntry)) (node : Node) (e fe : RegEntry)
    (tn2 inl t0 : Node) (restC ts : List Node)
    (h1 : reg.lookup node.attrs.refid = some e)
    (h2 : e.node.kind = Kind.spice_simulation)
    (h3 : reg.lookup e.node.attrs.target_label = some fe)
    (h4 : resolve_spice_simulation_title numberOf relUri curDoc e.node fe.node = some tn2)
    (h5 : e.node.resolvedTitle = true → tn2 = e.node)
    (h6 : node.children = inl :: restC)
    (h7 : tn2.children = t0 :: ts) :
    resolveLinkTextNode latex numberOf relUri curDoc reg node =
      some (Node.setChildren
        (Node.setChildren [textN (astext t0)] inl :: restC) node) := by
  have hsubst : latexSubst latex e.node node = node := by
    unfold latexSubst
    rw [if_neg]
    rintro ⟨_, hk⟩
    rw [h2] at hk
    cases hk
  unfold resolveLinkTextNode
  rw [h1]
  dsimp only
  rw [if_pos h2]
  cases hres : e.node.resolvedTitle with
  | true =>
    have htn : tn2 = e.node := h5 hres
    have hc : e.node.children = t0 :: ts := by rw [← htn]; exact h7
    rw [if_pos rfl]
    simp only [hc, hsubst, h6]
  | false =>
    rw [if_neg (by simp)]
    rw [h3]
    simp only [Option.some_bind]
    rw [h4]
    simp only [h7, hsubst, h6]

theorem setResolvedTitle_idem (n : Node) :
    Node.setResolvedTitle true (Node.setResolvedTitle true n) =
      Node.setResolvedTitle true n := by
  cases n; rfl

theorem setResolvedTitle_children (n : Node) :
    (Node.setResolvedTitle true n).children = n.children := by
  cases n; rfl

theorem setResolvedTitle_stable (n : Node) (h : n.resolvedTitle = true) :
    Node.setResolvedTitle true n = n := by
  cases n with
  | mk k a g r cs =>
    simp only [Node.resolvedTitle] at h
    rw [Node.setResolvedTitle, h]

/-- Claim C9: both title resolvers are idempotent — a node produced by a
successful resolution is returned unchanged by a second resolution, because
the rebuilt first child is an ordinary title node so the rewriting branch is
not re-entered, and the resolved flag stays set. -/
theorem C9_idempotent (latex : Bool) (numberOf : Node → Nat) (fmt : String)
    (applyFmt : String → Nat → String) (numS : Node → Nat)
    (relUri : String → String → String) (curDoc : String)
    (m m' nodeS fileN n' : Node)
    (hf : resolve_title latex numberOf fmt applyFmt m = some m')
    (hs : resolve_spice_simulation_title numS relUri curDoc nodeS fileN = some n') :
    resolve_title latex numberOf fmt applyFmt m' = some m' ∧
    resolve_spice_simulation_title numS relUri curDoc n' fileN = some n' := by
  constructor
  · unfold resolve_title at hf
    cases hm : m.children with
    | nil => rw [hm] at hf; simp at hf
    | cons title rest =>
      rw [hm] at hf
      dsimp only at hf
      by_cases ht : title.kind = Kind.spice_file_title
      · rw [if_pos ht] at hf
        by_cases he : m.kind = Kind.spice_file_enumerable
        · rw [if_pos he] at hf
          simp only [Option.some.injEq] at hf
          unfold resolve_title
          rw [← hf]
          simp only [Node.children]
          rw [if_neg (by simp [Node.kind])]
          rfl
        · rw [if_neg he] at hf
          cases htc : title.children with
          | nil => rw [htc] at hf; simp at hf
          | cons t0 trest =>
            rw [htc] at hf
            dsimp only at hf
            simp only [Option.some.injEq] at hf
            unfold resolve_title
            rw [← hf]
            simp only [Node.children]
            rw [if_neg (by simp [Node.kind])]
            rfl
      · rw [if_neg ht] at hf
        simp only [Option.some.injEq] at hf
        unfold resolve_title
        rw [← hf]
        rw [setResolvedTitle_children, hm]
        dsimp only
        rw [if_neg ht]
        rw [setResolvedTitle_idem]
  · cases fileN with
    | mk fk fa fg fr fcs =>
      cases nodeS with
      | mk nk na ng nr ncs =>
        unfold resolve_spice_simulation_title at hs ⊢
        simp only [Node.children] at hs ⊢
        cases ncs with
        | nil => simp at hs
        | cons title rest =>
          dsimp only at hs
          cases fcs with
          | nil => simp at hs
          | cons ftitle frest0 =>
            dsimp only at hs
            by_cases ht : title.kind = Kind.spice_simulation_title
            · rw [if_pos ht] at hs
              cases ftitle with
              | mk tk ta tg tr tcs =>
                cases tcs with
                | nil => simp at hs
                | cons f0 frest =>
                  simp only [Option.some.injEq] at hs
                  rw [← hs]
                  simp only [Node.children]
                  rw [if_neg (by simp [Node.kind])]
                  rfl
            · rw [if_neg ht] at hs
              simp only [Option.some.injEq] at hs
              rw [← hs]
              simp only [Node.setResolvedTitle]
              rw [if_neg ht]

/-- Claim C3: writing a file or simulation block as a start directive, free
siblings and an end directive and then running the merge transforms yields
exactly the tree that the unsplit block directive produces on the same
content: same node class, same attributes with "-start" stripped from the
classes and type, the content siblings moved into the content section, and
the gated flag cleared. -/
theorem C3_round_trip (docname : String) (serial : Nat) (l : String)
    (hl : (l == "") = false)
    (classOpt : List String)
    (hclsF : ∀ s ∈ classOpt, stripStart s = s)
    (hclsS : ∀ s ∈ classOpt,
      replaceAll "spice_simulation-start" "spice_simulation" s = s)
    (sub : Option (List Node))
    (hTs : containsKind Kind.spice_simulation_start (fileTitleNode sub) = false)
    (hTg : anyGatedFile (fileTitleNode sub) = false)
    (nonum : Bool) (target : String) (cs : List Node)
    (hcsS : containsKindL Kind.spice_simulation_start cs = false)
    (hcsE : containsKindL Kind.spice_simulation_end cs = false)
    (hcsFE : containsKindL Kind.spice_file_end cs = false)
    (hcsG : anyGatedFileL cs = false) :
    (applyMergeTransforms (docNode
        ((fileRun [] docname serial "spice_file-start"
            { label := some l, classOpt := classOpt, nonumber := nonum, hidden := false }
            sub []).output ++ cs ++ [fileEndOutput])) =
      docNode (fileRun [] docname serial "spice_file"
        { label := some l, classOpt := classOpt, nonumber := nonum, hidden := false }
        sub cs).output) ∧
    (applyMergeTransforms (docNode
        ((simRun [] docname serial "spice_simulation-start"
            Kind.spice_simulation_start false target
            { label := some l, classOpt := classOpt } []).output ++
          cs ++ [simEndOutput])) =
      docNode (simRun [] docname serial "spice_simulation"
        Kind.spice_simulation false target
        { label := some l, classOpt := classOpt } cs).output) :=
  ⟨C3aux_file docname serial l hl classOpt hclsF sub hTs hTg nonum cs hcsS hcsFE hcsG,
   C3aux_sim docname serial l hl classOpt hclsS target cs hcsS hcsE hcsG⟩

/-- Witness for C2_marker_elimination at the concrete paired document. -/
theorem C2_marker_elimination_witness :
    containsKind Kind.spice_simulation_start (applyMergeTransforms pairedDoc) = false ∧
    containsKind Kind.spice_simulation_end (applyMergeTransforms pairedDoc) = false ∧
    containsKind Kind.spice_file_end (applyMergeTransforms pairedDoc) = false :=
  C2_marker_elimination pairedDoc rfl (by decide)

/-- Witness for C3_round_trip at a one-paragraph block labelled x. -/
theorem C3_round_trip_witness :
    (applyMergeTransforms (docNode
        ((fileRun [] "doc" 0 "spice_file-start"
            { label := some "x", classOpt := [], nonumber := false, hidden := false }
            none []).output ++ [textN "hello"] ++ [fileEndOutput])) =
      docNode (fileRun [] "doc" 0 "spice_file"
        { label := some "x", classOpt := [], nonumber := false, hidden := false }
        none [textN "hello"]).output) ∧
    (applyMergeTransforms (docNode
        ((simRun [] "doc" 0 "spice_simulation-start"
            Kind.spice_simulation_start false "f1"
            { label := some "x", classOpt := [] } []).output ++
          [textN "hello"] ++ [simEndOutput])) =
      docNode (simRun [] "doc" 0 "spice_simulation"
        Kind.spice_simulation false "f1"
        { label := some "x", classOpt := [] } [textN "hello"]).output) :=
  C3_round_trip "doc" 0 "x" (by decide) [] (by simp) (by simp) none
    (by decide) (by decide) false "f1" [textN "hello"]
    (by decide) (by decide) (by decide) (by decide)

/-- Witness for C4_registry_aliasing at the concrete directive runs. -/
theorem C4_registry_aliasing_witness :
    fileEntry0.aliased = false ∧
    registryView fileEntry0 (textN "live") = fileEntry0.node ∧
    simEntry0.aliased = true ∧
    registryView simEntry0 (textN "live") = textN "live" := by
  have h := C4_registry_aliasing [] "doc" 0 "spice_file" "spice_simulation"
    { label := some "f" } { label := some "s1" } none [] []
    Kind.spice_simulation "f1" "f" fileEntry0 rfl rfl "s1" simEntry0 rfl rfl
  exact ⟨h.1.1, h.1.2 (textN "live"), h.2.1, h.2.2 (textN "live")⟩

/-- Witness for C5_undefined_target at the ghost-target document. -/
theorem C5_undefined_target_witness :
    resolveSimsNode oneNum noUri "doc" regF
        (Node.mk Kind.document {} false false (ghostSim :: [goodSim])) =
      (Node.mk Kind.document {} false false (ghostSim :: [goodSim]), regF,
        [("undefined label: " ++ ghostSim.attrs.target_label, "doc")], false) :=
  C5_undefined_target oneNum noUri "doc" regF {} false false ghostSim [goodSim]
    rfl rfl

/-- Witness for C6_shared_registry on a fresh record at line 7. -/
theorem C6_shared_registry_witness :
    (recordSimStart oneDocReg "doc" 7).lookup "doc" = some
      { start := [7], endL := [], sequence := [Tok.S],
        msg := ["spice_simulation-start at line: " ++ toString 7],
        type := "spice_file" } ∧
    (recordFileStart oneDocReg "doc" 7).lookup "doc" = some
      { start := [7], endL := [], sequence := [Tok.S],
        msg := ["spice_file-start at line: " ++ toString 7],
        type := "spice_file" } ∧
    (recordSimEnd oneDocReg "doc" 7).lookup "doc" = some
      { start := [], endL := [7], sequence := [Tok.E],
        msg := ["spice_simulation-end at line: " ++ toString 7],
        type := "spice_file" } ∧
    (recordFileEnd oneDocReg "doc" 7).lookup "doc" = some
      { start := [], endL := [7], sequence := [Tok.E],
        msg := ["spice_file-end at line: " ++ toString 7],
        type := "spice_file" } :=
  C6_shared_registry oneDocReg "doc" 7 (gatedInit "spice_file") rfl

/-- Witness for C7_first_wins at the occupied label x. -/
theorem C7_first_wins_witness :
    fileRun dupReg "doc" 1 "spice_file" { label := some "x" } none [] =
      { registry := dupReg, output := [],
        warnings := [("duplicate label: " ++ "x" ++ "; other instance in " ++
          doc2path dupEntry.docname, "doc")] } ∧
    simRun dupReg "doc" 1 "spice_simulation" Kind.spice_simulation false "f1"
        { label := some "x" } [] =
      { registry := dupReg, output := [],
        warnings := [("duplicate label: " ++ "x" ++ "; other instance in " ++
          doc2path dupEntry.docname, "doc")] } :=
  C7_first_wins dupReg "doc" 1 "spice_file" "spice_simulation"
    { label := some "x" } none [] Kind.spice_simulation "f1" "x" dupEntry
    rfl (by decide) rfl

/-- Witness for C8_link_text at the registered simulation s1. -/
theorem C8_link_text_witness :
    resolveLinkTextNode false oneNum noUri "doc" reg8 node8 =
      some (Node.setChildren
        (Node.setChildren
          [textN (astext (resolvedSim8.children.headD (textN "")))] inl8 :: [])
        node8) :=
  C8_link_text false oneNum noUri "doc" reg8 node8 simEntry8 fileEntry8
    resolvedSim8 inl8 (resolvedSim8.children.headD (textN ""))
    [] resolvedSim8.children.tail
    rfl rfl rfl rfl (fun h => absurd h (by decide)) rfl rfl

/-- Witness for C9_idempotent at concretely resolved file and simulation nodes. -/
theorem C9_idempotent_witness :
    resolve_title false oneNum "spice_file %s" fmt9 m9r = some m9r ∧
    resolve_spice_simulation_title oneNum noUri "doc" n9r fNode1 = some n9r :=
  C9_idempotent false oneNum "spice_file %s" fmt9 oneNum noUri "doc"
    m9 m9r goodSim fNode1 n9r rfl rfl

/-- Witness for C10_explicit_text at an explicit-text reference to f1. -/
theorem C10_explicit_text_witness :
    updateRefNode regF xref10 = some xref10 :=
  C10_explicit_text regF xref10 fEntry10 (by decide) rfl rfl rfl
